import Mathlib

/-!
# flashDriver: SAMD2x NVM flash driver

A shallow embedding of `samd2x/generic/hal_nvm.c` and of
`samd2x/rowBuffered/hal_nvm.c`, followed by theorems about the embedded
functions.

Conventions of the embedding.

* Machine integers are natural numbers; every place where the C code
  truncates (an assignment to `uint8_t`, `uint16_t`, an `uint32_t` sum or
  difference) carries the corresponding `% 2^w` through `u8`, `u16`, `u32`.
  Expressions the C code evaluates in (signed) `int` are evaluated in `Int`.
* The global variables and the memory-mapped registers the code touches are
  the fields of a `Machine`; every function takes the machine and returns the
  new one.
* A busy-wait on the controller (`WAIT_FOR_NVM`) returns when the READY flag
  is set; no step of the embedding ever changes that flag, so with the flag
  clear the wait never returns, which is the result `none`.
* Loops with a data-dependent number of iterations take a fuel argument and
  return `none` when it runs out.
* The machine carries a chronological event log (page-program calls, stores
  to the flash array, controller commands).  The log is instrumentation only:
  no embedded function reads it.
-/

namespace FlashDriver

/-! ## Device constants (header `samd21g18a.h`, not part of the sources) -/

/-- Modelled from the spec: the page size `FLASH_PAGE_SIZE` of the device header
`samd21g18a.h`, which is not among the sources; the spec's geometry is
`pageSize = 64`. -/
@[simp] def FLASH_PAGE_SIZE : Nat := 64

/-- Modelled from the spec: the flash size `FLASH_SIZE` of the device header
(`0x40000` bytes on the SAMD21G18A, i.e. 4096 pages of 64 bytes). -/
@[simp] def FLASH_SIZE : Nat := 262144

/-- Modelled from the spec: the base address `FLASH_ADDR` of the flash array in
the device header (flash is mapped at address 0). -/
@[simp] def FLASH_ADDR : Nat := 0

/-- Modelled from the spec: the `PROGE` (program error) flag of `NVMCTRL->STATUS`,
bit 2 in the device header. -/
@[simp] def NVMCTRL_STATUS_PROGE : Nat := 0x4

/-- Modelled from the spec: the `LOCKE` (lock error) flag of `NVMCTRL->STATUS`,
bit 3 in the device header. -/
@[simp] def NVMCTRL_STATUS_LOCKE : Nat := 0x8

/-- Modelled from the spec: the `NVME` (controller error) flag of
`NVMCTRL->STATUS`, bit 4 in the device header. -/
@[simp] def NVMCTRL_STATUS_NVME : Nat := 0x10

/-- Modelled from the spec: the `READY` flag of `NVMCTRL->INTFLAG`, bit 0 in the
device header. -/
@[simp] def NVMCTRL_INTFLAG_READY : Nat := 0x1

/-- Modelled from the spec: the erase-row command code of `NVMCTRL->CTRLA`. -/
@[simp] def NVMCTRL_CTRLA_CMD_ER : Nat := 0x02

/-- Modelled from the spec: the page-buffer-clear command code of
`NVMCTRL->CTRLA`. -/
@[simp] def NVMCTRL_CTRLA_CMD_PBC : Nat := 0x44

/-- Modelled from the spec: the command execution key of `NVMCTRL->CTRLA`. -/
@[simp] def NVMCTRL_CTRLA_CMDEX_KEY : Nat := 0xA500

/-! ## Constants of `hal_nvm.h` (both variants) -/

@[simp] def PAGES_PER_ROW : Nat := 4
@[simp] def BYTES_PER_FLASH_INDEX : Nat := 4
@[simp] def MIN_PGM_SIZE : Nat := 4
@[simp] def ROW_SIZE : Nat := FLASH_PAGE_SIZE * PAGES_PER_ROW
@[simp] def CLEAR : Nat := 0xFFFFFFFF

/-! ## Machine integers -/

/-- Truncation to `uint8_t`. -/
def u8 (x : Nat) : Nat := x % 256
/-- Truncation to `uint16_t`. -/
def u16 (x : Nat) : Nat := x % 65536
/-- Truncation to `uint32_t`. -/
def u32 (x : Nat) : Nat := x % 4294967296
/-- Conversion of a (signed) `int` value to `uint32_t`. -/
def intToU32 (x : Int) : Nat := (x % 4294967296).toNat
/-- Conversion of a (signed) `int` value to `uint8_t`. -/
def intToU8 (x : Int) : Nat := (x % 256).toNat

/-- Byte `a` of the flash array seen as little-endian 32-bit words: byte
`a % 4` of word `a / 4`. -/
def byteOfWords (mem : Nat → Nat) (a : Nat) : Nat :=
  (mem (a / 4) / 256 ^ (a % 4)) % 256

/-! ## Generic variant: `samd2x/generic/hal_nvm.c` -/

namespace Generic

inductive Flash_Error_t where
  | FLASH_SUCCESS
  | FLASH_ERR_BUSY
  | FLASH_ERR_PGME
  | FLASH_ERR_LOCKE
  | FLASH_ERR_NVME
  | FLASH_ERR_BYTES
  | FLASH_ERR_ADDRESS
  | FLASH_ERR_BLOCKS
  | FLASH_ERR_TIMEOUT
  deriving DecidableEq, Repr

open Flash_Error_t

/-- The write cursor `CurrentPageInfo_t` (`static CurrentPageInfo_t currentWrite`). -/
structure CurrentPageInfo_t where
  /-- Field `uint8_t *currentPageBuffer`: address of the source data. -/
  currentPageBuffer : Nat
  /-- Field `uint8_t offsetFreeByteLocation`. -/
  offsetFreeByteLocation : Nat
  /-- Field `uint8_t numberOfBytesCurrentPage`. -/
  numberOfBytesCurrentPage : Nat
  /-- Field `uint32_t bufferOffset`. -/
  bufferOffset : Nat
  deriving DecidableEq, Repr

/-- The zero state of the cursor (a `static` object is zero-initialised, and
`SamD2xxFlashWrite` stores zeros into all four fields on completion). -/
def CurrentPageInfo_t.zero : CurrentPageInfo_t :=
  { currentPageBuffer := 0, offsetFreeByteLocation := 0,
    numberOfBytesCurrentPage := 0, bufferOffset := 0 }

/-- What a store to `FLASH_MEM[w]` does to flash word `w`. -/
inductive StoreModel where
  /-- The word takes the stored value. -/
  | set
  /-- The word is programmed: bits can only be cleared, the word becomes
  the bitwise AND of its content and the stored value. -/
  | program
  deriving DecidableEq, Repr

/-- Instrumentation events. -/
inductive Event where
  /-- A call `NvmPageWrite(address, pageBuffer, numberOfBytes)`. -/
  | pageWrite (address pageBuffer numberOfBytes : Nat)
  /-- A store `FLASH_MEM[index] = value`. -/
  | store (index value : Nat)
  /-- A store `NVMCTRL->CTRLA.reg = ctrla`, issued while `NVMCTRL->ADDR.reg` held `addr`. -/
  | command (ctrla addr : Nat)
  deriving DecidableEq, Repr

/-- Globals, registers and memories of the generic variant. -/
structure Machine where
  /-- The `static CurrentPageInfo_t currentWrite`. -/
  currentWrite : CurrentPageInfo_t
  /-- The flash array `FLASH_MEM`, indexed by 32-bit word. -/
  FLASH_MEM : Nat → Nat
  /-- Data memory holding the source buffers, indexed by byte address (the
  source is taken to lie outside the flash array: stores to `FLASH_MEM`
  do not change it). -/
  ram : Nat → Nat
  /-- Register `NVMCTRL->STATUS`. -/
  STATUS : Nat
  /-- Register `NVMCTRL->INTFLAG`. -/
  INTFLAG : Nat
  /-- Register `NVMCTRL->ADDR`. -/
  ADDR : Nat
  /-- Register `NVMCTRL->CTRLA`. -/
  CTRLA : Nat
  /-- Which effect a store to the flash array has. -/
  storeModel : StoreModel
  /-- Chronological event log. -/
  log : List Event

/-- The 32-bit little-endian word of data memory at byte address `a`
(`((uint32_t *)p)[k]` reads the word at `p + 4 * k`). -/
def readWord (s : Machine) (a : Nat) : Nat :=
  s.ram a % 256 + 256 * (s.ram (a + 1) % 256) + 65536 * (s.ram (a + 2) % 256)
    + 16777216 * (s.ram (a + 3) % 256)

/-- New content of a flash word holding `old` after `value` is stored to it. -/
def hwStore (m : StoreModel) (old value : Nat) : Nat :=
  match m with
  | .set => value
  | .program => old &&& value

/-- The store `FLASH_MEM[index] = value`. -/
def storeFlash (s : Machine) (index value : Nat) : Machine :=
  { s with
    FLASH_MEM := fun w =>
      if w = index then hwStore s.storeModel (s.FLASH_MEM w) value else s.FLASH_MEM w
    log := s.log ++ [Event.store index value] }

/-- The store `NVMCTRL->CTRLA.reg = value`.  An erase-row command sets every
word of the addressed row to `0xFFFFFFFF`; `NVMCTRL->ADDR` holds the byte
address divided by two (`ADDR_REG_VAL`), a row has `ROW_SIZE / 4` words.  Other
commands leave the flash array alone. -/
def writeCTRLA (s : Machine) (value : Nat) : Machine :=
  { s with
    CTRLA := value
    FLASH_MEM :=
      if value = (NVMCTRL_CTRLA_CMD_ER ||| NVMCTRL_CTRLA_CMDEX_KEY) then
        fun w => if w / (ROW_SIZE / 4) = (2 * s.ADDR) / ROW_SIZE then CLEAR else s.FLASH_MEM w
      else s.FLASH_MEM
    log := s.log ++ [Event.command value s.ADDR] }

/-- The macro `NVM_READY`. -/
def NVM_READY (s : Machine) : Bool :=
  s.INTFLAG &&& NVMCTRL_INTFLAG_READY != 0

/-- The macro `WAIT_FOR_NVM()`: `while(!NVM_READY) { ... }`.  The loop body is
never entered when the flag is set; when it is clear the loop does not end. -/
def WAIT_FOR_NVM (s : Machine) : Option Machine :=
  if NVM_READY s then some s else none

/-- Macro `OFFSET_ADDRESS(address)`. -/
def OFFSET_ADDRESS (address : Nat) : Nat := address % ROW_SIZE
/-- Macro `ROW_WITHIN_FLASH(address)`. -/
def ROW_WITHIN_FLASH (address : Nat) : Nat := address / ROW_SIZE
/-- Macro `ADDR_REG_VAL(address)`. -/
def ADDR_REG_VAL (address : Nat) : Nat := address >>> 1
/-- Macro `FLASH_ADDRESS(rowNumber, pageOffset)`. -/
def FLASH_ADDRESS (rowNumber pageOffset : Nat) : Nat :=
  u32 (u32 (rowNumber * ROW_SIZE) + pageOffset) / BYTES_PER_FLASH_INDEX

/-- Function `getPageAddress`: `pagePosinRow` is a `uint8_t`, `pageNumber` a `uint16_t`. -/
def getPageAddress (destinationAddress : Nat) : Nat :=
  let pagePosinRow := u8 (OFFSET_ADDRESS destinationAddress / FLASH_PAGE_SIZE)
  let pageNumber := u16 (u32 (u32 (ROW_WITHIN_FLASH destinationAddress * PAGES_PER_ROW) + pagePosinRow))
  let pageAddress := pageNumber * FLASH_PAGE_SIZE
  pageAddress

/-- Function `getFlashMemIndex`. -/
def getFlashMemIndex (address : Nat) : Nat :=
  FLASH_ADDRESS (ROW_WITHIN_FLASH address) (OFFSET_ADDRESS address)

/-- The `FORROW()` loop of `IsRowEmpty`; `r` is the number of iterations
left (`iteration` runs from 0 to `ROW_SIZE / 4` inclusive).  The assignment to
`status` before the `break` is commented out in the source. -/
def IsRowEmpty_loop (s : Machine) : Nat → Nat → Flash_Error_t → Flash_Error_t
  | 0, _, status => status
  | r + 1, nvmMemory, status =>
    if CLEAR ≠ s.FLASH_MEM nvmMemory then
      status
    else
      IsRowEmpty_loop s r (u16 (nvmMemory + 1)) status

/-- Function `IsRowEmpty`. -/
def IsRowEmpty (s : Machine) (pageAddress : Nat) : Option (Flash_Error_t × Machine) :=
  let status := FLASH_SUCCESS
  match WAIT_FOR_NVM s with
  | none => none
  | some s1 =>
    let nvmMemory := u16 (getFlashMemIndex pageAddress)
    some (IsRowEmpty_loop s1 (ROW_SIZE / BYTES_PER_FLASH_INDEX + 1) nvmMemory status, s1)

/-- Function `NvmRowErase`. -/
def NvmRowErase (s : Machine) (address : Nat) : Option Machine :=
  match WAIT_FOR_NVM s with
  | none => none
  | some s1 =>
    let s2 := { s1 with ADDR := ADDR_REG_VAL address }
    some (writeCTRLA s2 (NVMCTRL_CTRLA_CMD_ER ||| NVMCTRL_CTRLA_CMDEX_KEY))

/-- The `for` loop of `NvmPageWrite`; `r` is the number of iterations left
(`iteration` runs from 0 while `iteration < FLASH_PAGE_SIZE / 4`), `nvmMemory`
is a `uint16_t`.  The two comparisons are evaluated in `int`. -/
def NvmPageWrite_loop (dataBuffer numberOfBytes : Nat) : Nat → Nat → Nat → Machine → Machine
  | 0, _, _, s => s
  | r + 1, iteration, nvmMemory, s =>
    if (iteration : Int) >
        Int.tdiv ((FLASH_PAGE_SIZE : Int) - (s.currentWrite.offsetFreeByteLocation : Int))
          (BYTES_PER_FLASH_INDEX : Int) then
      s
    else if (iteration : Int) >
        Int.tdiv ((numberOfBytes : Int) - 1) (BYTES_PER_FLASH_INDEX : Int) then
      NvmPageWrite_loop dataBuffer numberOfBytes r (iteration + 1) (u16 (nvmMemory + 1))
        (storeFlash s nvmMemory CLEAR)
    else
      NvmPageWrite_loop dataBuffer numberOfBytes r (iteration + 1) (u16 (nvmMemory + 1))
        (storeFlash s nvmMemory
          (readWord s (dataBuffer + 4 * u32 (iteration + s.currentWrite.bufferOffset))))

/-- Function `NvmPageWrite`; `numberOfBytes` is a `uint8_t` parameter. -/
def NvmPageWrite (s : Machine) (address pageBuffer numberOfBytes : Nat) : Option Machine :=
  let numberOfBytes := u8 numberOfBytes
  let s0 := { s with log := s.log ++ [Event.pageWrite address pageBuffer numberOfBytes] }
  let dataBuffer := pageBuffer
  match WAIT_FOR_NVM s0 with
  | none => none
  | some s1 =>
    let s2 := writeCTRLA s1 (NVMCTRL_CTRLA_CMD_PBC ||| NVMCTRL_CTRLA_CMDEX_KEY)
    let nvmMemory := u16 (getFlashMemIndex address)
    some (NvmPageWrite_loop dataBuffer numberOfBytes
      (FLASH_PAGE_SIZE / BYTES_PER_FLASH_INDEX) 0 nvmMemory s2)

/-- Function `NvmErrorStatus`: reads `REG_NVMCTRL_STATUS`, writes nothing. -/
def NvmErrorStatus (s : Machine) : Flash_Error_t :=
  if s.STATUS &&& NVMCTRL_STATUS_PROGE ≠ 0 then FLASH_ERR_PGME
  else if s.STATUS &&& NVMCTRL_STATUS_LOCKE ≠ 0 then FLASH_ERR_LOCKE
  else if s.STATUS &&& NVMCTRL_STATUS_NVME ≠ 0 then FLASH_ERR_NVME
  else FLASH_SUCCESS

/-- Function `UpdatePageHandle`: returns the number of bytes left after this
iteration and the machine with the cursor updated.  `FLASH_PAGE_SIZE -
offsetFreeByteLocation` is an `int`, converted to `uint32_t` for the comparison
and to `uint8_t` for the assignment. -/
def UpdatePageHandle (s : Machine) (sourceAddress destinationAddress numberOfBytes : Nat) :
    Nat × Machine :=
  let pageAddress := getPageAddress destinationAddress
  let offsetFreeByteLocation := u8 (u32 (destinationAddress + 4294967296 - pageAddress))
  let room : Int := (FLASH_PAGE_SIZE : Int) - (offsetFreeByteLocation : Int)
  let numberOfBytesCurrentPage :=
    if numberOfBytes > intToU32 room then intToU8 room else u8 numberOfBytes
  (u32 (numberOfBytes + 4294967296 - numberOfBytesCurrentPage),
   { s with
     currentWrite :=
       { s.currentWrite with
         currentPageBuffer := sourceAddress
         offsetFreeByteLocation := offsetFreeByteLocation
         numberOfBytesCurrentPage := numberOfBytesCurrentPage } })

/-- Function `DataSizeTests`; `numberOfBytes - 1` and the sum wrap around in
`uint32_t`. -/
def DataSizeTests (destinationAddress numberOfBytes : Nat) : Flash_Error_t :=
  if u32 (u32 (numberOfBytes + 4294967296 - 1) + destinationAddress) > FLASH_SIZE
      ∨ numberOfBytes < MIN_PGM_SIZE
      ∨ destinationAddress < FLASH_ADDR
      ∨ numberOfBytes > FLASH_SIZE - 1
      ∨ numberOfBytes = 0 then
    FLASH_ERR_BYTES
  else
    FLASH_SUCCESS

/-- The `while(numberOfBytesLeft)` loop of `SamD2xxFlashWrite`. -/
def SamD2xxFlashWrite_loop :
    Nat → Nat → Nat → Nat → Machine → Option Machine
  | fuel, sourceAddress, destinationAddress, numberOfBytesLeft, s =>
    if numberOfBytesLeft = 0 then
      some s
    else
      match fuel with
      | 0 => none
      | fuel + 1 =>
        let (numberOfBytesLeft, s1) :=
          UpdatePageHandle s sourceAddress destinationAddress numberOfBytesLeft
        match NvmPageWrite s1 destinationAddress s1.currentWrite.currentPageBuffer
            s1.currentWrite.numberOfBytesCurrentPage with
        | none => none
        | some s2 =>
          let destinationAddress :=
            u32 (destinationAddress + s2.currentWrite.numberOfBytesCurrentPage)
          let s3 :=
            if numberOfBytesLeft = 0 then
              { s2 with currentWrite := CurrentPageInfo_t.zero }
            else
              { s2 with
                currentWrite :=
                  { s2.currentWrite with
                    bufferOffset :=
                      u32 (s2.currentWrite.bufferOffset
                        + (s2.currentWrite.numberOfBytesCurrentPage + 1) / BYTES_PER_FLASH_INDEX) } }
          SamD2xxFlashWrite_loop fuel sourceAddress destinationAddress numberOfBytesLeft s3

/-- Function `SamD2xxFlashWrite`. -/
def SamD2xxFlashWrite (fuel : Nat) (s : Machine)
    (sourceAddress destinationAddress numberOfBytes : Nat) : Option (Flash_Error_t × Machine) :=
  if FLASH_ERR_BYTES = DataSizeTests destinationAddress numberOfBytes then
    some (FLASH_ERR_BYTES, s)
  else
    match SamD2xxFlashWrite_loop fuel sourceAddress destinationAddress numberOfBytes s with
    | none => none
    | some s1 => some (NvmErrorStatus s1, s1)

/-- The `for` loop of `SamD2xxFlashErase`; `r` is the number of iterations
left (`iteration` is a `uint16_t` running from 0 while
`iteration < (uint16_t)numberOfRows`). -/
def SamD2xxFlashErase_loop : Nat → Nat → Machine → Option Machine
  | 0, _, s => some s
  | r + 1, rowStartAddress, s =>
    match NvmRowErase s rowStartAddress with
    | none => none
    | some s1 => SamD2xxFlashErase_loop r (u32 (rowStartAddress + ROW_SIZE)) s1

/-- Function `SamD2xxFlashErase`. -/
def SamD2xxFlashErase (s : Machine) (rowStartAddress numberOfRows : Nat) :
    Option (Flash_Error_t × Machine) :=
  match SamD2xxFlashErase_loop (u16 numberOfRows) rowStartAddress s with
  | none => none
  | some s1 => some (NvmErrorStatus s1, s1)

/-- Function `SamD2xxFlashBlankCheck`.  The local `status` is not initialised and is
returned as is when `numberOfBytes > ROW_SIZE`; `uninit` is the value it holds
then. -/
def SamD2xxFlashBlankCheck (uninit : Flash_Error_t) (s : Machine)
    (address numberOfBytes : Nat) : Option (Flash_Error_t × Machine) :=
  if numberOfBytes ≤ ROW_SIZE then
    let rowAddress := u32 (ROW_WITHIN_FLASH address * ROW_SIZE)
    IsRowEmpty s rowAddress
  else
    some (uninit, s)

/-! ### Auxiliary definitions for the statements -/

/-- The `NvmPageWrite` calls recorded in a log, as pairs (address, numberOfBytes). -/
def pageWriteCalls : List Event → List (Nat × Nat)
  | [] => []
  | Event.pageWrite a _ k :: l => (a, k) :: pageWriteCalls l
  | Event.store _ _ :: l => pageWriteCalls l
  | Event.command _ _ :: l => pageWriteCalls l

/-- A ready machine with blank flash, the cursor in its zero state and `ram` as data memory. -/
def blankMachine (ram : Nat → Nat) (m : StoreModel) : Machine :=
  { currentWrite := CurrentPageInfo_t.zero, FLASH_MEM := fun _ => CLEAR, ram := ram,
    STATUS := 0, INTFLAG := NVMCTRL_INTFLAG_READY, ADDR := 0, CTRLA := 0, storeModel := m, log := [] }

/-- State in which the word loop of `NvmPageWrite` starts. -/
def pageWriteEntry (s : Machine) (a buf k : Nat) : Machine :=
  writeCTRLA { s with log := s.log ++ [Event.pageWrite a buf (u8 k)] }
    (NVMCTRL_CTRLA_CMD_PBC ||| NVMCTRL_CTRLA_CMDEX_KEY)

/-- Size of the slice `UpdatePageHandle` schedules for a request of `left`
bytes at destination `d`. -/
def sliceSize (d left : Nat) : Nat := min left (64 - d % 64)

/-- Machine after one iteration of the `while` loop of `SamD2xxFlashWrite`
entered with `left` bytes to write at destination `d`, the controller being
ready. -/
def afterIteration (s : Machine) (src d left : Nat) : Machine :=
  let s2 := NvmPageWrite_loop src (sliceSize d left) 16 0 (u16 (getFlashMemIndex d))
    (pageWriteEntry (UpdatePageHandle s src d left).2 d src (sliceSize d left))
  if left - sliceSize d left = 0 then
    { s2 with currentWrite := CurrentPageInfo_t.zero }
  else
    { s2 with
      currentWrite :=
        { s2.currentWrite with
          bufferOffset := u32 (s2.currentWrite.bufferOffset + (sliceSize d left + 1) / 4) } }

/-- The row-erase commands `SamD2xxFlashErase` is expected to issue for `n`
rows from `a`: the `i`-th with `NVMCTRL->ADDR` holding `ADDR_REG_VAL` of the
start of row `i`. -/
def eraseCommands (a : Nat) : Nat → List Event
  | 0 => []
  | n + 1 =>
    Event.command (NVMCTRL_CTRLA_CMD_ER ||| NVMCTRL_CTRLA_CMDEX_KEY) (ADDR_REG_VAL a)
      :: eraseCommands (a + ROW_SIZE) n

/-- Value `NvmPageWrite` stores at iteration `it` of its word loop when called
with `numberOfBytes = k` and `pageBuffer = buf`: the filler after the last data
word, the source word `dataBuffer[it + bufferOffset]` before. -/
def pageWord (s : Machine) (buf k it : Nat) : Nat :=
  if it > (k - 1) / 4 then CLEAR
  else readWord s (buf + 4 * u32 (it + s.currentWrite.bufferOffset))

/-- A ready machine with blank flash whose cursor holds values left over from
elsewhere. -/
def staleCursorMachine : Machine :=
  { blankMachine (fun _ => 0) StoreModel.set with
    currentWrite :=
      { currentPageBuffer := 7, offsetFreeByteLocation := 3, numberOfBytesCurrentPage := 9,
        bufferOffset := 5 } }

/-- Destination and `bufferOffset` at the head of each iteration of the
`while` loop of `SamD2xxFlashWrite` on a ready controller: `bufferOffset` is the
offset `NvmPageWrite` uses in that iteration (`UpdatePageHandle` does not
assign it). -/
def bufferOffsetTrace (src : Nat) : Nat → Nat → Nat → Machine → List (Nat × Nat)
  | 0, _, _, _ => []
  | fuel + 1, d, left, s =>
    if left = 0 then []
    else (d, s.currentWrite.bufferOffset)
      :: bufferOffsetTrace src fuel (u32 (d + sliceSize d left)) (left - sliceSize d left)
          (afterIteration s src d left)

end Generic

/-! ## Row-buffered variant: `samd2x/rowBuffered/hal_nvm.c` -/

namespace RowBuffered

inductive NvmStatus_e where
  | e_Nvm_Busy
  | e_Nvm_Ready
  | e_Nvm_Invalid_Address
  | e_Nvm_PageNotEmpty
  | e_Nvm_PageBufferComplete
  | e_Nvm_PageBufferIncomplete
  | e_Nvm_CurrentRowErased
  | e_Nvm_Write_Rejected
  deriving DecidableEq, Repr

open NvmStatus_e

/-- The row shadow `currentRowBuffer_t` (`currentRowBuffer_t flashMemHandle`). -/
structure currentRowBuffer_t where
  /-- Field `uint8_t rowData[FLASH_PAGE_SIZE * PAGES_PER_ROW]`, indexed by byte. -/
  rowData : Nat → Nat
  /-- Field `uint8_t *currentPageBuffer`, a pointer into `rowData`, held as the
  index of the byte it points to. -/
  currentPageBuffer : Nat
  /-- Field `uint8_t offsetFreeLoc`. -/
  offsetFreeLoc : Nat
  /-- Field `uint16_t currentRowNumber`. -/
  currentRowNumber : Nat
  /-- Field `uint8_t currentPagePosition`. -/
  currentPagePosition : Nat
  /-- Field `NvmStatus_e currentPageStatus`. -/
  currentPageStatus : NvmStatus_e

/-- Macro `PAGE_WITHIN_ROW(address)`. -/
def PAGE_WITHIN_ROW (address : Nat) : Nat := address % (FLASH_PAGE_SIZE * PAGES_PER_ROW)
/-- Macro `ROW_WITHIN_FLASH(address)`. -/
def ROW_WITHIN_FLASH (address : Nat) : Nat := address / (FLASH_PAGE_SIZE * PAGES_PER_ROW)

/-- Function `getPageAddress`: `pagePosinRow` is a `uint8_t`, `pageNumber` a `uint16_t`. -/
def getPageAddress (destinationAddress : Nat) : Nat :=
  let pagePosinRow := u8 (PAGE_WITHIN_ROW destinationAddress / FLASH_PAGE_SIZE)
  let pageNumber := u16 (u32 (u32 (ROW_WITHIN_FLASH destinationAddress * PAGES_PER_ROW) + pagePosinRow))
  let pageAddress := pageNumber * FLASH_PAGE_SIZE
  pageAddress

/-- Function `UpdateCurrentBuffer`: returns the page address and the updated
`flashMemHandle`. -/
def UpdateCurrentBuffer (h : currentRowBuffer_t) (destinationAddress : Nat) :
    Nat × currentRowBuffer_t :=
  let pageAddress := getPageAddress destinationAddress
  let offsetFreeLoc := u8 (u32 (destinationAddress + 4294967296 - pageAddress))
  let currentRowNumber := u16 (ROW_WITHIN_FLASH destinationAddress)
  let currentPagePosition := u8 (PAGE_WITHIN_ROW destinationAddress / FLASH_PAGE_SIZE)
  (pageAddress,
   { h with
     offsetFreeLoc := offsetFreeLoc
     currentRowNumber := currentRowNumber
     currentPagePosition := currentPagePosition
     currentPageBuffer := FLASH_PAGE_SIZE * currentPagePosition })

/-- The state of `flashMemHandle` after `NvmInit` (`InitializeFlashMemHandle`
then `FlushRowBuffer`); the fields `NvmInit` does not assign are zero, the
object being static. -/
def initialHandle : currentRowBuffer_t :=
  { rowData := fun _ => 0xFF, currentPageBuffer := 0, offsetFreeLoc := 0,
    currentRowNumber := 0, currentPagePosition := 0,
    currentPageStatus := NvmStatus_e.e_Nvm_Busy }

/-- Modelled from the spec: the mask `NVMCTRL_STATUS_MASK` of the device header,
all the bits of `NVMCTRL->STATUS` (`0x011F`). -/
@[simp] def NVMCTRL_STATUS_MASK : Nat := 0x011F

/-- Instrumentation events of the row-buffered variant. -/
inductive Event where
  /-- A call `NvmFullPageWrite(address, pageBuffer)`; `pageBuffer` is the index in
  `rowData` the pointer points to. -/
  | fullPageWrite (address pageBuffer : Nat)
  /-- A call `NvmRowErase(address)`. -/
  | rowErase (address : Nat)
  /-- A store `FLASH_MEM[index] = value`. -/
  | store (index value : Nat)
  /-- A store `NVMCTRL->CTRLA.reg = ctrla`, issued while `NVMCTRL->ADDR.reg` held `addr`. -/
  | command (ctrla addr : Nat)
  /-- A store `NVMCTRL->STATUS.reg = value`. -/
  | statusStore (value : Nat)
  deriving DecidableEq, Repr

/-- Globals, registers and memories of the row-buffered variant. -/
structure Machine where
  /-- The global `currentRowBuffer_t flashMemHandle`. -/
  flashMemHandle : currentRowBuffer_t
  /-- The flash array `FLASH_MEM`, indexed by 32-bit word. -/
  FLASH_MEM : Nat → Nat
  /-- Data memory holding the source buffers, indexed by byte address (the
  source is taken to lie outside the flash array and outside `flashMemHandle`). -/
  ram : Nat → Nat
  /-- Register `NVMCTRL->STATUS`. -/
  STATUS : Nat
  /-- Register `NVMCTRL->INTFLAG`. -/
  INTFLAG : Nat
  /-- Register `NVMCTRL->ADDR`. -/
  ADDR : Nat
  /-- Register `NVMCTRL->CTRLA`. -/
  CTRLA : Nat
  /-- Which effect a store to the flash array has. -/
  storeModel : Generic.StoreModel
  /-- Chronological event log. -/
  log : List Event

/-- The 32-bit little-endian word of `rowData` at byte index `p`
(`((uint32_t *)pageBuffer)[k]` reads the word at `pageBuffer + 4 * k`).  Indices
from 256 on lie outside the array; the embedding reads them from the same
map. -/
def readShadowWord (h : currentRowBuffer_t) (p : Nat) : Nat :=
  h.rowData p % 256 + 256 * (h.rowData (p + 1) % 256) + 65536 * (h.rowData (p + 2) % 256)
    + 16777216 * (h.rowData (p + 3) % 256)

/-- The store `FLASH_MEM[index] = value`. -/
def storeFlash (s : Machine) (index value : Nat) : Machine :=
  { s with
    FLASH_MEM := fun w =>
      if w = index then Generic.hwStore s.storeModel (s.FLASH_MEM w) value else s.FLASH_MEM w
    log := s.log ++ [Event.store index value] }

/-- The store `NVMCTRL->CTRLA.reg = value`, with the effect of the controller
as in the generic variant: an erase-row command sets every word of the row
addressed by `NVMCTRL->ADDR` (which the controller reads as the byte address
divided by two) to `0xFFFFFFFF`; other commands leave the flash array alone. -/
def writeCTRLA (s : Machine) (value : Nat) : Machine :=
  { s with
    CTRLA := value
    FLASH_MEM :=
      if value = (NVMCTRL_CTRLA_CMD_ER ||| NVMCTRL_CTRLA_CMDEX_KEY) then
        fun w => if w / (ROW_SIZE / 4) = (2 * s.ADDR) / ROW_SIZE then CLEAR else s.FLASH_MEM w
      else s.FLASH_MEM
    log := s.log ++ [Event.command value s.ADDR] }

/-- Modelled from the spec: the store `NVMCTRL->STATUS.reg = value`; the sticky
bits of `STATUS` (bits 1 to 4) are cleared by writing 1 to them, the other bits
are not changed by a store. -/
def writeSTATUS (s : Machine) (value : Nat) : Machine :=
  { s with
    STATUS := s.STATUS - (s.STATUS &&& (value &&& 0x1E))
    log := s.log ++ [Event.statusStore value] }

/-- The macro `NVM_READY`. -/
def NVM_READY (s : Machine) : Bool :=
  s.INTFLAG &&& NVMCTRL_INTFLAG_READY != 0

/-- The macro `WAIT_FOR_NVM()`: `while(!NVM_READY) ;`.  With the flag clear the
loop does not end. -/
def WAIT_FOR_NVM (s : Machine) : Option Machine :=
  if NVM_READY s then some s else none

/-- Macro `FLASH_PAGE_ADDRESS(rowNumber, pageOffset)`. -/
def FLASH_PAGE_ADDRESS (rowNumber pageOffset : Nat) : Nat :=
  u32 (u32 (u32 (rowNumber * PAGES_PER_ROW) * FLASH_PAGE_SIZE) + pageOffset)
    / BYTES_PER_FLASH_INDEX

/-- Function `getFlashMemIndex`. -/
def getFlashMemIndex (address : Nat) : Nat :=
  FLASH_PAGE_ADDRESS (ROW_WITHIN_FLASH address) (PAGE_WITHIN_ROW address)

/-- The `FORPAGE(iteration)` loop of `IsPageEmpty`; `r` is the number of
iterations left (`iteration` runs from 0 to `FLASH_PAGE_SIZE / 4` inclusive),
`nvmMemory` is a `uint16_t`. -/
def IsPageEmpty_loop (s : Machine) : Nat → Nat → NvmStatus_e → NvmStatus_e
  | 0, _, status => status
  | r + 1, nvmMemory, status =>
    if CLEAR ≠ s.FLASH_MEM nvmMemory then
      e_Nvm_PageNotEmpty
    else
      IsPageEmpty_loop s r (u16 (nvmMemory + 1)) status

/-- Function `IsPageEmpty`. -/
def IsPageEmpty (s : Machine) (pageAddress : Nat) : Option (NvmStatus_e × Machine) :=
  let status := e_Nvm_Ready
  match WAIT_FOR_NVM s with
  | none => none
  | some s1 =>
    let nvmMemory := u16 (getFlashMemIndex pageAddress)
    some (IsPageEmpty_loop s1 (FLASH_PAGE_SIZE / BYTES_PER_FLASH_INDEX + 1) nvmMemory status, s1)

/-- Function `FlushRowBuffer`: `memset(rowData, 0xFF, FLASH_PAGE_SIZE * PAGES_PER_ROW)`. -/
def FlushRowBuffer (h : currentRowBuffer_t) : currentRowBuffer_t :=
  { h with rowData := fun i => if i < FLASH_PAGE_SIZE * PAGES_PER_ROW then 0xFF else h.rowData i }

/-- Function `NvmRowErase`; `NVMCTRL->ADDR` receives the address of
`FLASH_MEM[getFlashMemIndex(address)]`. -/
def NvmRowErase (s : Machine) (address : Nat) : Option (NvmStatus_e × Machine) :=
  let s0 := { s with log := s.log ++ [Event.rowErase address] }
  match WAIT_FOR_NVM s0 with
  | none => none
  | some s1 =>
    let s2 := writeCTRLA s1 (NVMCTRL_CTRLA_CMD_PBC ||| NVMCTRL_CTRLA_CMDEX_KEY)
    let s3 := writeSTATUS s2 (s2.STATUS ||| NVMCTRL_STATUS_MASK)
    let s4 := { s3 with ADDR := u32 (FLASH_ADDR + 4 * getFlashMemIndex address) }
    let s5 := writeCTRLA s4 (NVMCTRL_CTRLA_CMD_ER ||| NVMCTRL_CTRLA_CMDEX_KEY)
    match WAIT_FOR_NVM s5 with
    | none => none
    | some s6 => some (e_Nvm_Ready, s6)

/-- The copy loop of `NvmFullPageWrite`; `r` is the number of iterations left
(`iteration` runs from 0 to `FLASH_PAGE_SIZE / 4` inclusive), `nvmMemory` is a
`uint16_t`, `dataBuffer` the index in `rowData` the pointer points to. -/
def NvmFullPageWrite_loop (dataBuffer : Nat) : Nat → Nat → Nat → Machine → Machine
  | 0, _, _, s => s
  | r + 1, iteration, nvmMemory, s =>
    NvmFullPageWrite_loop dataBuffer r (iteration + 1) (u16 (nvmMemory + 1))
      (storeFlash s nvmMemory (readShadowWord s.flashMemHandle (dataBuffer + 4 * iteration)))

/-- Function `NvmFullPageWrite`. -/
def NvmFullPageWrite (s : Machine) (address pageBuffer : Nat) :
    Option (NvmStatus_e × Machine) :=
  let s0 := { s with log := s.log ++ [Event.fullPageWrite address pageBuffer] }
  let dataBuffer := pageBuffer
  match IsPageEmpty s0 address with
  | none => none
  | some (status, s1) =>
    if e_Nvm_PageNotEmpty ≠ status then
      match WAIT_FOR_NVM s1 with
      | none => none
      | some s2 =>
        let nvmMemory := u16 (getFlashMemIndex address)
        let s3 := writeCTRLA s2 (NVMCTRL_CTRLA_CMD_PBC ||| NVMCTRL_CTRLA_CMDEX_KEY)
        let s4 := writeSTATUS s3 (s3.STATUS ||| NVMCTRL_STATUS_MASK)
        let s5 := NvmFullPageWrite_loop dataBuffer
          (FLASH_PAGE_SIZE / BYTES_PER_FLASH_INDEX + 1) 0 nvmMemory s4
        match WAIT_FOR_NVM s5 with
        | none => none
        | some s6 => some (e_Nvm_Ready, s6)
    else
      some (status, s1)

/-- The byte loop of `WriteManager`: `iteration` and `currentPageOffset` are
`uint8_t`, the comparison with `numberOfBytes` and the page-boundary test are
evaluated in `int`.  Indices of `rowData` from 256 on lie outside the array;
the embedding writes them to the same map. -/
def WriteManager_loop (sourceAddress numberOfBytes : Nat) :
    Nat → Nat → Nat → Nat → NvmStatus_e → Machine → Option (NvmStatus_e × Machine)
  | fuel, iteration, destinationAddress, currentPageOffset, status, s =>
    if ¬ iteration < numberOfBytes then
      some (status, s)
    else
      match fuel with
      | 0 => none
      | fuel + 1 =>
        let h := s.flashMemHandle
        let s1 := { s with
          flashMemHandle := { h with
            rowData := fun i =>
              if i = h.currentPageBuffer + currentPageOffset then
                s.ram (sourceAddress + iteration) % 256
              else h.rowData i } }
        let currentPageOffset := u8 (currentPageOffset + 1)
        if ((iteration % FLASH_PAGE_SIZE : Nat) : Int)
            = ((FLASH_PAGE_SIZE : Int) - (h.offsetFreeLoc : Int)) - 1 then
          let h1 := s1.flashMemHandle
          let s2 := { s1 with
            flashMemHandle := { h1 with
              currentPageBuffer := FLASH_PAGE_SIZE * h1.currentPagePosition } }
          match NvmFullPageWrite s2 destinationAddress s2.flashMemHandle.currentPageBuffer with
          | none => none
          | some (status, s3) =>
            if e_Nvm_PageNotEmpty ≠ status then
              let h3 := { s3.flashMemHandle with offsetFreeLoc := 0 }
              let currentPageOffset := h3.offsetFreeLoc
              let h4 :=
                if h3.currentPagePosition < PAGES_PER_ROW - 1 then
                  { h3 with currentPagePosition := u8 (h3.currentPagePosition + 1) }
                else
                  FlushRowBuffer { h3 with
                    currentPagePosition := 0
                    currentRowNumber := u16 (h3.currentRowNumber + 1) }
              let h5 := { h4 with currentPageBuffer := FLASH_PAGE_SIZE * h4.currentPagePosition }
              let destinationAddress := u32 (destinationAddress + FLASH_PAGE_SIZE)
              WriteManager_loop sourceAddress numberOfBytes fuel (u8 (iteration + 1))
                destinationAddress currentPageOffset status { s3 with flashMemHandle := h5 }
            else
              match NvmRowErase s3 destinationAddress with
              | none => none
              | some (status, s4) =>
                WriteManager_loop sourceAddress numberOfBytes fuel (u8 (iteration + 1))
                  destinationAddress currentPageOffset status s4
        else
          WriteManager_loop sourceAddress numberOfBytes fuel (u8 (iteration + 1))
            destinationAddress currentPageOffset status s1

/-- Function `WriteManager`; `numberOfBytes` is a `uint16_t` parameter. -/
def WriteManager (fuel : Nat) (s : Machine) (destinationAddress sourceAddress numberOfBytes : Nat) :
    Option (NvmStatus_e × Machine) :=
  let status := e_Nvm_Ready
  let currentPageOffset := s.flashMemHandle.offsetFreeLoc
  WriteManager_loop sourceAddress (u16 numberOfBytes) fuel 0 destinationAddress
    currentPageOffset status s

/-- Function `SamD2xxFlashWrite` of the row-buffered variant. -/
def SamD2xxFlashWrite (fuel : Nat) (s : Machine)
    (destinationAddress sourceAddress numberOfBytes : Nat) : Option (NvmStatus_e × Machine) :=
  let r := UpdateCurrentBuffer s.flashMemHandle destinationAddress
  let pageAddress := r.1
  WriteManager fuel { s with flashMemHandle := r.2 } pageAddress sourceAddress numberOfBytes

/-- A ready machine just after `NvmInit`, with `flash` as flash array and `ram`
as data memory. -/
def initialMachine (flash ram : Nat → Nat) (m : Generic.StoreModel) : Machine :=
  { flashMemHandle := initialHandle, FLASH_MEM := flash, ram := ram, STATUS := 0,
    INTFLAG := NVMCTRL_INTFLAG_READY, ADDR := 0, CTRLA := 0, storeModel := m, log := [] }

/-- A machine just after `NvmInit` on blank flash; source byte at address `a` is `a % 256`. -/
def freshMachine : Machine :=
  initialMachine (fun _ => CLEAR) (fun a => a) Generic.StoreModel.program

/-- A machine just after `NvmInit` whose flash is blank except for word 16,
the first word of page 1, which holds 0. -/
def nextPageProgrammed : Machine :=
  initialMachine (fun w => if w = 16 then 0 else CLEAR) (fun a => a) Generic.StoreModel.program

/-- A machine just after `NvmInit` whose flash page 0 (words 0 to 15) holds
zeros, the rest being blank; source byte at address `a` is `a % 200 + 1`. -/
def pageZeroProgrammed : Machine :=
  initialMachine (fun w => if w < 16 then 0 else CLEAR) (fun a => a % 200 + 1)
    Generic.StoreModel.program

/-- A ready machine on blank flash whose shadow byte `i` holds `i % 256`. -/
def countingShadow : Machine :=
  { freshMachine with flashMemHandle := { initialHandle with rowData := fun i => i % 256 } }

end RowBuffered

/-! ## Theorems: generic variant -/

namespace Generic
open Flash_Error_t

theorem pageWriteCalls_append (l₁ l₂ : List Event) :
    pageWriteCalls (l₁ ++ l₂) = pageWriteCalls l₁ ++ pageWriteCalls l₂ := by
  induction l₁ with
  | nil => rfl
  | cons e l ih => cases e <;> simp [pageWriteCalls, ih]

theorem getPageAddress_eq (d : Nat) : getPageAddress d = (d / 64 % 65536) * 64 := by
  simp only [getPageAddress, u8, u16, u32, OFFSET_ADDRESS, ROW_WITHIN_FLASH, ROW_SIZE,
    FLASH_PAGE_SIZE, PAGES_PER_ROW]
  omega

theorem UpdatePageHandle_offset (s : Machine) (src d n : Nat) :
    (UpdatePageHandle s src d n).2.currentWrite.offsetFreeByteLocation = d % 64 := by
  simp only [UpdatePageHandle, getPageAddress_eq d, u8, u32]
  omega

theorem UpdatePageHandle_count (s : Machine) (src d n : Nat) :
    (UpdatePageHandle s src d n).2.currentWrite.numberOfBytesCurrentPage = min n (64 - d % 64) := by
  simp only [UpdatePageHandle, getPageAddress_eq d, u8, u32, intToU32, intToU8, FLASH_PAGE_SIZE]
  split <;> omega

theorem UpdatePageHandle_left (s : Machine) (src d n : Nat) (hn : n < 4294967296) :
    (UpdatePageHandle s src d n).1 = n - min n (64 - d % 64) := by
  simp only [UpdatePageHandle, getPageAddress_eq d, u8, u32, intToU32, intToU8, FLASH_PAGE_SIZE]
  split <;> omega

theorem NvmPageWrite_loop_frame (buf k : Nat) :
    ∀ (r it nvm : Nat) (s : Machine),
      (NvmPageWrite_loop buf k r it nvm s).currentWrite = s.currentWrite
      ∧ (NvmPageWrite_loop buf k r it nvm s).ram = s.ram
      ∧ (NvmPageWrite_loop buf k r it nvm s).STATUS = s.STATUS
      ∧ (NvmPageWrite_loop buf k r it nvm s).INTFLAG = s.INTFLAG
      ∧ (NvmPageWrite_loop buf k r it nvm s).ADDR = s.ADDR
      ∧ (NvmPageWrite_loop buf k r it nvm s).CTRLA = s.CTRLA
      ∧ (NvmPageWrite_loop buf k r it nvm s).storeModel = s.storeModel
      ∧ pageWriteCalls (NvmPageWrite_loop buf k r it nvm s).log = pageWriteCalls s.log := by
  intro r
  induction r with
  | zero => intro it nvm s; simp [NvmPageWrite_loop]
  | succ r ih =>
    intro it nvm s
    unfold NvmPageWrite_loop
    split
    · simp
    · split
      · have h := ih (it + 1) (u16 (nvm + 1)) (storeFlash s nvm CLEAR)
        simpa [storeFlash, pageWriteCalls_append, pageWriteCalls] using h
      · have h := ih (it + 1) (u16 (nvm + 1)) (storeFlash s nvm
          (readWord s (buf + 4 * u32 (it + s.currentWrite.bufferOffset))))
        simpa [storeFlash, pageWriteCalls_append, pageWriteCalls] using h

theorem NvmPageWrite_eq (s : Machine) (a buf k : Nat) (hready : NVM_READY s = true) :
    NvmPageWrite s a buf k = some (NvmPageWrite_loop buf (u8 k) 16 0 (u16 (getFlashMemIndex a))
      (pageWriteEntry s a buf k)) := by
  have hr : NVM_READY { s with log := s.log ++ [Event.pageWrite a buf (u8 k)] } = true := hready
  simp only [NvmPageWrite, WAIT_FOR_NVM, hr, if_true, pageWriteEntry]
  rfl

theorem NvmPageWrite_frame (s : Machine) (a buf k : Nat) (hready : NVM_READY s = true) :
    ∃ s', NvmPageWrite s a buf k = some s'
      ∧ s'.currentWrite = s.currentWrite ∧ s'.ram = s.ram ∧ s'.STATUS = s.STATUS
      ∧ s'.INTFLAG = s.INTFLAG ∧ s'.storeModel = s.storeModel
      ∧ pageWriteCalls s'.log = pageWriteCalls s.log ++ [(a, u8 k)] := by
  refine ⟨_, NvmPageWrite_eq s a buf k hready, ?_⟩
  obtain ⟨h1, h2, h3, h4, _, _, h7, h8⟩ := NvmPageWrite_loop_frame buf (u8 k)
      16 0 (u16 (getFlashMemIndex a)) (pageWriteEntry s a buf k)
  refine ⟨h1, h2, h3, h4, h7, ?_⟩
  rw [h8]
  simp [pageWriteEntry, writeCTRLA, pageWriteCalls_append, pageWriteCalls]

theorem sliceSize_le (d left : Nat) : sliceSize d left ≤ 64 - d % 64 := by
  unfold sliceSize; omega

theorem sliceSize_pos (d left : Nat) (h : left ≠ 0) : 0 < sliceSize d left := by
  unfold sliceSize; omega

theorem sliceSize_le_left (d left : Nat) : sliceSize d left ≤ left := by
  unfold sliceSize; omega

theorem u8_sliceSize (d left : Nat) : u8 (sliceSize d left) = sliceSize d left := by
  unfold u8 sliceSize; omega

theorem SamD2xxFlashWrite_loop_zero (fuel src d : Nat) (s : Machine) :
    SamD2xxFlashWrite_loop fuel src d 0 s = some s := by
  unfold SamD2xxFlashWrite_loop; simp

theorem SamD2xxFlashWrite_loop_succ (fuel src d left : Nat) (s : Machine)
    (hleft : left ≠ 0) (hl : left < 4294967296) (hready : NVM_READY s = true) :
    SamD2xxFlashWrite_loop (fuel + 1) src d left s
      = SamD2xxFlashWrite_loop fuel src (u32 (d + sliceSize d left)) (left - sliceSize d left)
          (afterIteration s src d left) := by
  have hr : NVM_READY (UpdatePageHandle s src d left).2 = true := hready
  have hc : (UpdatePageHandle s src d left).2.currentWrite.numberOfBytesCurrentPage
      = sliceSize d left := UpdatePageHandle_count s src d left
  have hb : (UpdatePageHandle s src d left).2.currentWrite.currentPageBuffer = src := rfl
  have hl' : (UpdatePageHandle s src d left).1 = left - sliceSize d left :=
    UpdatePageHandle_left s src d left hl
  have hcw := (NvmPageWrite_loop_frame src (sliceSize d left) 16 0 (u16 (getFlashMemIndex d))
    (pageWriteEntry (UpdatePageHandle s src d left).2 d src (sliceSize d left))).1
  have hcw2 : (pageWriteEntry (UpdatePageHandle s src d left).2 d src
      (sliceSize d left)).currentWrite = (UpdatePageHandle s src d left).2.currentWrite := rfl
  conv_lhs => unfold SamD2xxFlashWrite_loop
  simp only [hleft, if_false]
  rw [hc, hb, NvmPageWrite_eq _ _ _ _ hr, u8_sliceSize]
  simp only [hcw, hcw2, hc, hl', afterIteration, BYTES_PER_FLASH_INDEX]

theorem afterIteration_frame (s : Machine) (src d left : Nat) :
    (afterIteration s src d left).INTFLAG = s.INTFLAG
      ∧ (afterIteration s src d left).STATUS = s.STATUS
      ∧ (afterIteration s src d left).ram = s.ram
      ∧ (afterIteration s src d left).storeModel = s.storeModel
      ∧ pageWriteCalls (afterIteration s src d left).log
          = pageWriteCalls s.log ++ [(d, sliceSize d left)] := by
  obtain ⟨_, h2, h3, h4, _, _, h7, h8⟩ :=
    NvmPageWrite_loop_frame src (sliceSize d left) 16 0 (u16 (getFlashMemIndex d))
      (pageWriteEntry (UpdatePageHandle s src d left).2 d src (sliceSize d left))
  have hlog : pageWriteCalls (pageWriteEntry (UpdatePageHandle s src d left).2 d src
      (sliceSize d left)).log = pageWriteCalls s.log ++ [(d, sliceSize d left)] := by
    simp [pageWriteEntry, writeCTRLA, pageWriteCalls_append, pageWriteCalls, UpdatePageHandle,
      u8_sliceSize]
  unfold afterIteration
  split
  · exact ⟨h4, h3, h2, h7, h8.trans hlog⟩
  · exact ⟨h4, h3, h2, h7, h8.trans hlog⟩

theorem afterIteration_ready (s : Machine) (src d left : Nat) (h : NVM_READY s = true) :
    NVM_READY (afterIteration s src d left) = true := by
  have := (afterIteration_frame s src d left).1
  unfold NVM_READY at *
  rw [this]; exact h

theorem afterIteration_cursor_last (s : Machine) (src d left : Nat)
    (h : left - sliceSize d left = 0) :
    (afterIteration s src d left).currentWrite = CurrentPageInfo_t.zero := by
  unfold afterIteration
  rw [if_pos h]

/-- The loop of `SamD2xxFlashWrite` ends within `left` iterations; the slices
it hands to `NvmPageWrite` add up to `left` and each fits before the next page
boundary. -/
theorem SamD2xxFlashWrite_loop_slices (src : Nat) :
    ∀ (fuel d left : Nat) (s : Machine), left < 4294967296 → left ≤ fuel →
      NVM_READY s = true →
      ∃ s' calls, SamD2xxFlashWrite_loop fuel src d left s = some s'
        ∧ pageWriteCalls s'.log = pageWriteCalls s.log ++ calls
        ∧ calls.length ≤ left
        ∧ (calls.map Prod.snd).sum = left
        ∧ (∀ c ∈ calls, 0 < c.2 ∧ c.2 ≤ 64 - c.1 % 64)
        ∧ s'.STATUS = s.STATUS := by
  intro fuel
  induction fuel with
  | zero =>
    intro d left s _ hfuel _
    have h0 : left = 0 := by omega
    subst h0
    exact ⟨s, [], SamD2xxFlashWrite_loop_zero 0 src d s, by simp, by simp, by simp, by simp, rfl⟩
  | succ fuel ih =>
    intro d left s hl hfuel hready
    by_cases h0 : left = 0
    · subst h0
      exact ⟨s, [], SamD2xxFlashWrite_loop_zero _ src d s, by simp, by simp, by simp, by simp, rfl⟩
    · have hpos := sliceSize_pos d left h0
      have hle := sliceSize_le_left d left
      obtain ⟨s', calls, hrun, hlog, hlen, hsum, hall, hst⟩ :=
        ih (u32 (d + sliceSize d left)) (left - sliceSize d left) (afterIteration s src d left)
          (by omega) (by omega) (afterIteration_ready s src d left hready)
      obtain ⟨_, hS, _, _, hL⟩ := afterIteration_frame s src d left
      refine ⟨s', (d, sliceSize d left) :: calls, ?_, ?_, ?_, ?_, ?_, ?_⟩
      · rw [SamD2xxFlashWrite_loop_succ fuel src d left s h0 hl hready]; exact hrun
      · rw [hlog, hL]; simp
      · simp only [List.length_cons]; omega
      · simp only [List.map_cons, List.sum_cons, hsum]; omega
      · intro c hc
        rcases List.mem_cons.mp hc with rfl | hc
        · exact ⟨hpos, sliceSize_le d left⟩
        · exact hall c hc
      · rw [hst, hS]

theorem DataSizeTests_success_iff (d n : Nat) :
    DataSizeTests d n = FLASH_SUCCESS ↔
      (u32 (u32 (n + 4294967296 - 1) + d) ≤ 262144 ∧ 4 ≤ n ∧ n ≤ 262143) := by
  unfold DataSizeTests
  simp only [FLASH_SIZE, MIN_PGM_SIZE, FLASH_ADDR]
  split
  · constructor
    · intro h; cases h
    · intro h; omega
  · constructor
    · intro _; omega
    · intro _; rfl

theorem DataSizeTests_cases (d n : Nat) :
    DataSizeTests d n = FLASH_SUCCESS ∨ DataSizeTests d n = FLASH_ERR_BYTES := by
  unfold DataSizeTests
  split
  · exact Or.inr rfl
  · exact Or.inl rfl

theorem and_two_pow_ne_zero_iff (x i : Nat) : x &&& 2 ^ i ≠ 0 ↔ x.testBit i = true := by
  constructor
  · intro h
    by_contra hb
    apply h
    apply Nat.eq_of_testBit_eq
    intro j
    simp only [Nat.testBit_and, Nat.testBit_two_pow, Nat.zero_testBit, Bool.and_eq_false_imp,
      decide_eq_false_iff_not]
    intro hx hij
    subst hij
    exact hb hx
  · intro hb h0
    have h1 := congrArg (fun y => y.testBit i) h0
    simp [hb, Nat.testBit_two_pow_self] at h1

/-- Outcome of writing 100 bytes to destination 40: three page programs. -/
theorem write_100_at_40 (fuel : Nat) (s : Machine) (src : Nat)
    (hready : NVM_READY s = true) (hfuel : 3 ≤ fuel) :
    ∃ r s', SamD2xxFlashWrite fuel s src 40 100 = some (r, s')
      ∧ pageWriteCalls s'.log = pageWriteCalls s.log ++ [(40, 24), (64, 64), (128, 12)]
      ∧ s'.currentWrite = CurrentPageInfo_t.zero := by
  obtain ⟨f, rfl⟩ : ∃ f, fuel = f + 1 + 1 + 1 := ⟨fuel - 3, by omega⟩
  have e1 : sliceSize 40 100 = 24 := by decide
  have e2 : sliceSize 64 76 = 64 := by decide
  have e3 : sliceSize 128 12 = 12 := by decide
  have r1 := afterIteration_ready s src 40 100 hready
  have r2 := afterIteration_ready _ src 64 76 r1
  have h1 := SamD2xxFlashWrite_loop_succ (f + 1 + 1) src 40 100 s (by decide) (by decide) hready
  have h2 := SamD2xxFlashWrite_loop_succ (f + 1) src 64 76 _ (by decide) (by decide) r1
  have h3 := SamD2xxFlashWrite_loop_succ f src 128 12 _ (by decide) (by decide) r2
  rw [e1] at h1
  rw [e2] at h2
  rw [e3] at h3
  have u1 : u32 (40 + 24) = 64 := by decide
  have u2 : u32 (64 + 64) = 128 := by decide
  rw [u1] at h1
  rw [u2] at h2
  have hloop : SamD2xxFlashWrite_loop (f + 1 + 1 + 1) src 40 100 s
      = some (afterIteration (afterIteration (afterIteration s src 40 100) src 64 76) src 128 12) := by
    rw [h1]
    show SamD2xxFlashWrite_loop (f + 1 + 1) src 64 76 _ = _
    rw [h2]
    show SamD2xxFlashWrite_loop (f + 1) src 128 12 _ = _
    rw [h3]
    exact SamD2xxFlashWrite_loop_zero _ _ _ _
  have hadm : DataSizeTests 40 100 = FLASH_SUCCESS := by decide
  refine ⟨NvmErrorStatus
      (afterIteration (afterIteration (afterIteration s src 40 100) src 64 76) src 128 12),
    afterIteration (afterIteration (afterIteration s src 40 100) src 64 76) src 128 12,
    ?_, ?_, ?_⟩
  · unfold SamD2xxFlashWrite
    rw [hadm, hloop]
    rfl
  · rw [(afterIteration_frame _ src 128 12).2.2.2.2, (afterIteration_frame _ src 64 76).2.2.2.2,
      (afterIteration_frame _ src 40 100).2.2.2.2, e1, e2, e3]
    simp
  · exact afterIteration_cursor_last _ src 128 12 (by decide)

/-- C1. Generic variant: for every request `DataSizeTests` admits, on a ready
controller the loop of `SamD2xxFlashWrite` ends (any fuel of at least
`numberOfBytes` iterations is enough, and at most `numberOfBytes` calls are made);
the `numberOfBytes` values of the `NvmPageWrite` calls it makes add up to the
requested `numberOfBytes`, and each is at most `64 - d % 64`, `d` being the
destination address of that call. -/
theorem C1_write_splitter_coverage (fuel : Nat) (s : Machine) (src d n : Nat)
    (hadm : DataSizeTests d n = FLASH_SUCCESS) (hready : NVM_READY s = true)
    (hfuel : n ≤ fuel) :
    ∃ r s' calls, SamD2xxFlashWrite fuel s src d n = some (r, s')
      ∧ pageWriteCalls s'.log = pageWriteCalls s.log ++ calls
      ∧ calls.length ≤ n
      ∧ (calls.map Prod.snd).sum = n
      ∧ ∀ c ∈ calls, c.2 ≤ 64 - c.1 % 64 := by
  have hn := (DataSizeTests_success_iff d n).mp hadm
  obtain ⟨s', calls, hrun, hlog, hlen, hsum, hall, _⟩ :=
    SamD2xxFlashWrite_loop_slices src fuel d n s (by omega) hfuel hready
  refine ⟨NvmErrorStatus s', s', calls, ?_, hlog, hlen, hsum, fun c hc => (hall c hc).2⟩
  unfold SamD2xxFlashWrite
  rw [hadm, hrun]
  rfl

/-- Witness for C1: 100 bytes to destination 40 on a ready machine. -/
theorem C1_write_splitter_coverage_witness :
    ∃ r s' calls, SamD2xxFlashWrite 100 (blankMachine (fun _ => 0) StoreModel.set) 0 40 100
        = some (r, s')
      ∧ pageWriteCalls s'.log
          = pageWriteCalls (blankMachine (fun _ => 0) StoreModel.set).log ++ calls
      ∧ calls.length ≤ 100
      ∧ (calls.map Prod.snd).sum = 100
      ∧ ∀ c ∈ calls, c.2 ≤ 64 - c.1 % 64 :=
  C1_write_splitter_coverage 100 (blankMachine (fun _ => 0) StoreModel.set) 0 40 100
    (by decide) (by decide) (by decide)

/-- C3. `DataSizeTests` admits the request of 4 bytes at destination 262141,
whose last byte 262144 lies beyond the last flash byte 262143, and the request
of 4 bytes at destination 4294967293, which lies outside the flash. -/
theorem C3_DataSizeTests_admits_past_end :
    DataSizeTests 262141 4 = FLASH_SUCCESS
      ∧ ¬ (262141 + 4 ≤ FLASH_ADDR + FLASH_SIZE)
      ∧ DataSizeTests 4294967293 4 = FLASH_SUCCESS
      ∧ ¬ (4294967293 < FLASH_ADDR + FLASH_SIZE) := by
  decide

/-- C4. Generic variant: a request with `numberOfBytes = 0`, with
`numberOfBytes < MIN_PGM_SIZE`, or more generally one that `DataSizeTests`
rejects, makes `SamD2xxFlashWrite` return `FLASH_ERR_BYTES` with the machine
(cursor, flash array, registers, event log) exactly as it was. -/
theorem C4_rejected_write_has_no_effect (fuel : Nat) (s : Machine) (src d n : Nat)
    (h : n = 0 ∨ n < MIN_PGM_SIZE ∨ DataSizeTests d n = FLASH_ERR_BYTES) :
    SamD2xxFlashWrite fuel s src d n = some (FLASH_ERR_BYTES, s) := by
  have hrej : DataSizeTests d n = FLASH_ERR_BYTES := by
    rcases DataSizeTests_cases d n with hs | hs
    · have := (DataSizeTests_success_iff d n).mp hs
      simp only [MIN_PGM_SIZE] at h
      rcases h with h | h | h
      · omega
      · omega
      · rw [hs] at h; cases h
    · exact hs
  unfold SamD2xxFlashWrite
  rw [hrej]
  rfl

/-- Witness for C4: a request of 3 bytes is rejected and changes nothing. -/
theorem C4_rejected_write_has_no_effect_witness :
    SamD2xxFlashWrite 5 (blankMachine (fun _ => 0) StoreModel.set) 0 262144 3
      = some (FLASH_ERR_BYTES, blankMachine (fun _ => 0) StoreModel.set) :=
  C4_rejected_write_has_no_effect 5 (blankMachine (fun _ => 0) StoreModel.set) 0 262144 3
    (by decide)

/-- C5 as stated fails: writing 100 bytes to destination 40 does not call
`NvmPageWrite` with the slice sizes 24 and 76. -/
theorem C5_two_slices_counterexample :
    ¬ ∃ r s', SamD2xxFlashWrite 100 (blankMachine (fun _ => 0) StoreModel.set) 0 40 100
        = some (r, s')
      ∧ (pageWriteCalls s'.log).map Prod.snd = [24, 76] := by
  rintro ⟨r, s', hrun, hcalls⟩
  obtain ⟨r2, s2, hrun2, hlog, _⟩ :=
    write_100_at_40 100 (blankMachine (fun _ => 0) StoreModel.set) 0 (by decide) (by decide)
  rw [hrun] at hrun2
  cases hrun2
  rw [hlog] at hcalls
  simp [blankMachine, pageWriteCalls] at hcalls

/-- C5 (amended). Generic variant, `pageSize = 64`, `pagesPerRow = 4`: on a
ready controller `SamD2xxFlashWrite` of 100 bytes to destination address 40
calls `NvmPageWrite` exactly three times, at addresses 40, 64 and 128 with
slice sizes 24 (tail of page 0), 64 (all of page 1) and 12 (head of page 2),
and afterwards the cursor is in its zero state. -/
theorem C5_write_100_at_40_three_slices (fuel : Nat) (s : Machine) (src : Nat)
    (hready : NVM_READY s = true) (hfuel : 3 ≤ fuel) :
    ∃ r s', SamD2xxFlashWrite fuel s src 40 100 = some (r, s')
      ∧ pageWriteCalls s'.log = pageWriteCalls s.log ++ [(40, 24), (64, 64), (128, 12)]
      ∧ s'.currentWrite = CurrentPageInfo_t.zero :=
  write_100_at_40 fuel s src hready hfuel

/-- Witness for C5 (amended): a ready blank machine and 3 iterations of fuel. -/
theorem C5_write_100_at_40_three_slices_witness :
    ∃ r s', SamD2xxFlashWrite 3 (blankMachine (fun _ => 0) StoreModel.program) 0 40 100
        = some (r, s')
      ∧ pageWriteCalls s'.log
          = pageWriteCalls (blankMachine (fun _ => 0) StoreModel.program).log
            ++ [(40, 24), (64, 64), (128, 12)]
      ∧ s'.currentWrite = CurrentPageInfo_t.zero :=
  C5_write_100_at_40_three_slices 3 (blankMachine (fun _ => 0) StoreModel.program) 0
    (by decide) (by decide)

/-- C7. For every value of the `STATUS` register `NvmErrorStatus` returns
`FLASH_ERR_PGME` if the `PROGE` bit (bit 2) is set, otherwise `FLASH_ERR_LOCKE`
if the `LOCKE` bit (bit 3) is set, otherwise `FLASH_ERR_NVME` if the `NVME` bit
(bit 4) is set, otherwise `FLASH_SUCCESS`. -/
theorem C7_status_priority (s : Machine) :
    NvmErrorStatus s =
      if s.STATUS.testBit 2 then FLASH_ERR_PGME
      else if s.STATUS.testBit 3 then FLASH_ERR_LOCKE
      else if s.STATUS.testBit 4 then FLASH_ERR_NVME
      else FLASH_SUCCESS := by
  have h2 := and_two_pow_ne_zero_iff s.STATUS 2
  have h3 := and_two_pow_ne_zero_iff s.STATUS 3
  have h4 := and_two_pow_ne_zero_iff s.STATUS 4
  simp only [NvmErrorStatus, NVMCTRL_STATUS_PROGE, NVMCTRL_STATUS_LOCKE, NVMCTRL_STATUS_NVME]
  norm_num at h2 h3 h4
  simp only [ne_eq, h2, h3, h4]

theorem IsRowEmpty_loop_eq (s : Machine) :
    ∀ (r nvm : Nat) (status : Flash_Error_t), IsRowEmpty_loop s r nvm status = status := by
  intro r
  induction r with
  | zero => intro nvm status; rfl
  | succ r ih =>
    intro nvm status
    unfold IsRowEmpty_loop
    split
    · rfl
    · exact ih _ _

theorem SamD2xxFlashBlankCheck_eq (uninit : Flash_Error_t) (s : Machine) (address k : Nat)
    (hk : k ≤ ROW_SIZE) (hready : NVM_READY s = true) :
    SamD2xxFlashBlankCheck uninit s address k = some (FLASH_SUCCESS, s) := by
  unfold SamD2xxFlashBlankCheck IsRowEmpty WAIT_FOR_NVM
  rw [if_pos hk]
  simp only [hready, if_true, IsRowEmpty_loop_eq]

theorem NvmRowErase_eq (s : Machine) (a : Nat) (hready : NVM_READY s = true) :
    NvmRowErase s a = some (writeCTRLA { s with ADDR := ADDR_REG_VAL a }
      (NVMCTRL_CTRLA_CMD_ER ||| NVMCTRL_CTRLA_CMDEX_KEY)) := by
  unfold NvmRowErase WAIT_FOR_NVM
  simp only [hready, if_true]

theorem eraseCommands_length (a n : Nat) : (eraseCommands a n).length = n := by
  induction n generalizing a with
  | zero => rfl
  | succ n ih => simp [eraseCommands, ih]

theorem eraseCommands_get (n : Nat) :
    ∀ (a i : Nat), i < n →
      (eraseCommands a n)[i]? = some (Event.command
        (NVMCTRL_CTRLA_CMD_ER ||| NVMCTRL_CTRLA_CMDEX_KEY) (ADDR_REG_VAL (a + i * ROW_SIZE))) := by
  induction n with
  | zero => intro a i hi; omega
  | succ n ih =>
    intro a i hi
    cases i with
    | zero => simp [eraseCommands]
    | succ i =>
      simp only [eraseCommands, List.getElem?_cons_succ]
      rw [ih (a + ROW_SIZE) i (by omega)]
      congr 3
      simp only [ROW_SIZE, FLASH_PAGE_SIZE, PAGES_PER_ROW]
      omega

theorem SamD2xxFlashErase_loop_spec :
    ∀ (r a : Nat) (s : Machine), NVM_READY s = true → a % 256 = 0 →
      a + r * 256 < 4294967296 →
      ∃ s', SamD2xxFlashErase_loop r a s = some s'
        ∧ s'.log = s.log ++ eraseCommands a r
        ∧ (∀ w, s'.FLASH_MEM w
            = if a / 4 ≤ w ∧ w < a / 4 + r * 64 then CLEAR else s.FLASH_MEM w)
        ∧ s'.INTFLAG = s.INTFLAG ∧ s'.STATUS = s.STATUS
        ∧ s'.currentWrite = s.currentWrite := by
  intro r
  induction r with
  | zero =>
    intro a s _ _ _
    refine ⟨s, rfl, by simp [eraseCommands], ?_, rfl, rfl, rfl⟩
    intro w
    rw [if_neg (by omega)]
  | succ r ih =>
    intro a s hready ha hle
    have hr1 : NVM_READY (writeCTRLA { s with ADDR := ADDR_REG_VAL a }
        (NVMCTRL_CTRLA_CMD_ER ||| NVMCTRL_CTRLA_CMDEX_KEY)) = true := hready
    have hu : u32 (a + ROW_SIZE) = a + 256 := by
      simp only [u32, ROW_SIZE, FLASH_PAGE_SIZE, PAGES_PER_ROW]
      omega
    obtain ⟨s', hrun, hlog, hmem, hi, hst, hcw⟩ :=
      ih (a + 256) _ hr1 (by omega) (by omega)
    refine ⟨s', ?_, ?_, ?_, ?_, ?_, ?_⟩
    · unfold SamD2xxFlashErase_loop
      rw [NvmRowErase_eq s a hready]
      simp only [hu]
      exact hrun
    · rw [hlog]
      simp [writeCTRLA, eraseCommands]
    · intro w
      rw [hmem w]
      simp only [writeCTRLA, ADDR_REG_VAL, if_true, ROW_SIZE, FLASH_PAGE_SIZE, PAGES_PER_ROW,
        CLEAR, Nat.shiftRight_eq_div_pow]
      by_cases h1 : (a + 256) / 4 ≤ w ∧ w < (a + 256) / 4 + r * 64
      · rw [if_pos h1, if_pos (by omega)]
      · rw [if_neg h1]
        by_cases h2 : w / (64 * 4 / 4) = 2 * (a / 2 ^ 1) / (64 * 4)
        · rw [if_pos h2, if_pos (by omega)]
        · rw [if_neg h2, if_neg (by omega)]
    · rw [hi]; rfl
    · rw [hst]; rfl
    · rw [hcw]; rfl

/-- C8. A ready controller whose `STATUS` has the `PROGE` bit set: an erase of
one row returns `FLASH_ERR_PGME` and leaves `STATUS` as it was, so the next
erase, during which no step raises an error, returns `FLASH_ERR_PGME` again. -/
theorem C8_status_is_not_acknowledged :
    (SamD2xxFlashErase { blankMachine (fun _ => 0) StoreModel.set with STATUS := 4 } 0 1).bind
        (fun r1 => (SamD2xxFlashErase r1.2 256 1).map
          (fun r2 => (r1.1, r1.2.STATUS, r2.1, r2.2.STATUS)))
      = some (FLASH_ERR_PGME, 4, FLASH_ERR_PGME, 4) := by
  decide

/-- C9. On a ready controller whose flash words are all 0 (no word is
blank), `SamD2xxFlashBlankCheck` of the row at address 0 returns
`FLASH_SUCCESS`. -/
theorem C9_blank_check_reports_programmed_row_blank :
    ({ blankMachine (fun _ => 0) StoreModel.set with FLASH_MEM := fun _ => 0 } : Machine).FLASH_MEM 0
        ≠ CLEAR
      ∧ (SamD2xxFlashBlankCheck FLASH_ERR_BUSY
          { blankMachine (fun _ => 0) StoreModel.set with FLASH_MEM := fun _ => 0 } 0 4).map
            Prod.fst
        = some FLASH_SUCCESS := by
  decide

/-- C10. Generic variant, ready controller: for a row-aligned
`rowStartAddress` and `numberOfRows` rows lying inside the flash,
`SamD2xxFlashErase` returns, having issued exactly `numberOfRows` commands, all
of them row erases, the `i`-th with `NVMCTRL->ADDR` set for the row starting at
`rowStartAddress + i * ROW_SIZE`; afterwards every word of each of these rows
is `0xFFFFFFFF`, the other words are unchanged, and `SamD2xxFlashBlankCheck` at
any address of these rows returns `FLASH_SUCCESS`. -/
theorem C10_erase_range (s : Machine) (rowStartAddress numberOfRows : Nat)
    (hready : NVM_READY s = true) (halign : rowStartAddress % ROW_SIZE = 0)
    (hin : rowStartAddress + numberOfRows * ROW_SIZE ≤ FLASH_ADDR + FLASH_SIZE) :
    ∃ r s', SamD2xxFlashErase s rowStartAddress numberOfRows = some (r, s')
      ∧ s'.log = s.log ++ eraseCommands rowStartAddress numberOfRows
      ∧ (eraseCommands rowStartAddress numberOfRows).length = numberOfRows
      ∧ (∀ i, i < numberOfRows →
          (eraseCommands rowStartAddress numberOfRows)[i]? = some (Event.command
            (NVMCTRL_CTRLA_CMD_ER ||| NVMCTRL_CTRLA_CMDEX_KEY)
            (ADDR_REG_VAL (rowStartAddress + i * ROW_SIZE)))
          ∧ 2 * ADDR_REG_VAL (rowStartAddress + i * ROW_SIZE) = rowStartAddress + i * ROW_SIZE)
      ∧ (∀ i w, i < numberOfRows → (rowStartAddress + i * ROW_SIZE) / 4 ≤ w →
          w < (rowStartAddress + i * ROW_SIZE) / 4 + ROW_SIZE / 4 → s'.FLASH_MEM w = CLEAR)
      ∧ (∀ w, ¬ (rowStartAddress / 4 ≤ w ∧ w < (rowStartAddress + numberOfRows * ROW_SIZE) / 4) →
          s'.FLASH_MEM w = s.FLASH_MEM w)
      ∧ (∀ uninit address numberOfBytes, numberOfBytes ≤ ROW_SIZE →
          rowStartAddress ≤ address → address < rowStartAddress + numberOfRows * ROW_SIZE →
          SamD2xxFlashBlankCheck uninit s' address numberOfBytes = some (FLASH_SUCCESS, s')) := by
  simp only [ROW_SIZE, FLASH_PAGE_SIZE, PAGES_PER_ROW, FLASH_ADDR, FLASH_SIZE] at halign hin
  have hu : u16 numberOfRows = numberOfRows := by unfold u16; omega
  obtain ⟨s', hrun, hlog, hmem, hi, _, _⟩ :=
    SamD2xxFlashErase_loop_spec numberOfRows rowStartAddress s hready halign (by omega)
  have hready' : NVM_READY s' = true := by
    unfold NVM_READY at *
    rw [hi]; exact hready
  refine ⟨NvmErrorStatus s', s', ?_, hlog, eraseCommands_length _ _, ?_, ?_, ?_, ?_⟩
  · unfold SamD2xxFlashErase
    rw [hu, hrun]
  · intro i hi
    refine ⟨eraseCommands_get numberOfRows rowStartAddress i hi, ?_⟩
    simp only [ADDR_REG_VAL, ROW_SIZE, FLASH_PAGE_SIZE, PAGES_PER_ROW, Nat.shiftRight_eq_div_pow]
    omega
  · intro i w hi h1 h2
    simp only [ROW_SIZE, FLASH_PAGE_SIZE, PAGES_PER_ROW] at h1 h2
    rw [hmem w, if_pos (by omega)]
  · intro w hw
    simp only [ROW_SIZE, FLASH_PAGE_SIZE, PAGES_PER_ROW] at hw
    rw [hmem w, if_neg (by omega)]
  · intro uninit address k hk _ _
    exact SamD2xxFlashBlankCheck_eq uninit s' address k hk hready'

/-- Witness for C10: three rows from address 512 on a machine whose flash words are all 0. -/
theorem C10_erase_range_witness :
    ∃ r s', SamD2xxFlashErase
        { blankMachine (fun _ => 0) StoreModel.program with FLASH_MEM := fun _ => 0 } 512 3
        = some (r, s')
      ∧ s'.log = ({ blankMachine (fun _ => 0) StoreModel.program with
            FLASH_MEM := fun _ => 0 } : Machine).log ++ eraseCommands 512 3
      ∧ (eraseCommands 512 3).length = 3
      ∧ (∀ i, i < 3 →
          (eraseCommands 512 3)[i]? = some (Event.command
            (NVMCTRL_CTRLA_CMD_ER ||| NVMCTRL_CTRLA_CMDEX_KEY)
            (ADDR_REG_VAL (512 + i * ROW_SIZE)))
          ∧ 2 * ADDR_REG_VAL (512 + i * ROW_SIZE) = 512 + i * ROW_SIZE)
      ∧ (∀ i w, i < 3 → (512 + i * ROW_SIZE) / 4 ≤ w →
          w < (512 + i * ROW_SIZE) / 4 + ROW_SIZE / 4 → s'.FLASH_MEM w = CLEAR)
      ∧ (∀ w, ¬ (512 / 4 ≤ w ∧ w < (512 + 3 * ROW_SIZE) / 4) →
          s'.FLASH_MEM w = ({ blankMachine (fun _ => 0) StoreModel.program with
            FLASH_MEM := fun _ => 0 } : Machine).FLASH_MEM w)
      ∧ (∀ uninit address numberOfBytes, numberOfBytes ≤ ROW_SIZE →
          512 ≤ address → address < 512 + 3 * ROW_SIZE →
          SamD2xxFlashBlankCheck uninit s' address numberOfBytes = some (FLASH_SUCCESS, s')) :=
  C10_erase_range { blankMachine (fun _ => 0) StoreModel.program with FLASH_MEM := fun _ => 0 }
    512 3 (by decide) (by decide) (by decide)

theorem tdiv_room_gt_iff (it off : Nat) (h : off ≤ 64) :
    ((it : Int) > Int.tdiv ((FLASH_PAGE_SIZE : Int) - (off : Int)) (BYTES_PER_FLASH_INDEX : Int))
      ↔ it > (64 - off) / 4 := by
  simp only [FLASH_PAGE_SIZE, BYTES_PER_FLASH_INDEX, Nat.cast_ofNat]
  rw [Int.tdiv_eq_ediv (by omega) (by omega)]
  omega

theorem tdiv_count_gt_iff (it k : Nat) :
    ((it : Int) > Int.tdiv ((k : Int) - 1) (BYTES_PER_FLASH_INDEX : Int)) ↔ it > (k - 1) / 4 := by
  simp only [BYTES_PER_FLASH_INDEX, Nat.cast_ofNat]
  rcases Nat.eq_zero_or_pos k with h | h
  · subst h
    have : Int.tdiv (((0 : Nat) : Int) - 1) 4 = 0 := by decide
    rw [this]
    omega
  · rw [Int.tdiv_eq_ediv (by omega) (by omega)]
    omega

theorem NvmPageWrite_loop_succ_eq (buf k r it nvm : Nat) (s : Machine)
    (hoff : s.currentWrite.offsetFreeByteLocation ≤ 64) :
    NvmPageWrite_loop buf k (r + 1) it nvm s =
      if it > (64 - s.currentWrite.offsetFreeByteLocation) / 4 then s
      else NvmPageWrite_loop buf k r (it + 1) (u16 (nvm + 1))
        (storeFlash s nvm (pageWord s buf k it)) := by
  conv_lhs => unfold NvmPageWrite_loop
  simp only [tdiv_room_gt_iff it _ hoff, tdiv_count_gt_iff it k, pageWord]
  split
  · rfl
  · split <;> rfl

theorem pageWord_storeFlash (s : Machine) (i v buf k it : Nat) :
    pageWord (storeFlash s i v) buf k it = pageWord s buf k it := rfl

/-- A flash word no executed iteration of the word loop points to keeps its
content. -/
theorem NvmPageWrite_loop_untouched (buf k w : Nat) :
    ∀ (r it nvm : Nat) (s : Machine), s.currentWrite.offsetFreeByteLocation ≤ 64 →
      nvm < 65536 →
      (∀ j, j < r → it + j ≤ (64 - s.currentWrite.offsetFreeByteLocation) / 4 →
        w ≠ (nvm + j) % 65536) →
      (NvmPageWrite_loop buf k r it nvm s).FLASH_MEM w = s.FLASH_MEM w := by
  intro r
  induction r with
  | zero => intro it nvm s _ _ _; rfl
  | succ r ih =>
    intro it nvm s hoff hnvm hw
    rw [NvmPageWrite_loop_succ_eq buf k r it nvm s hoff]
    split
    · rfl
    · rename_i hlim
      have h0 := hw 0 (by omega) (by omega)
      rw [ih (it + 1) (u16 (nvm + 1)) (storeFlash s nvm (pageWord s buf k it)) hoff
        (by unfold u16; omega) ?_]
      · simp only [storeFlash]
        rw [if_neg (by omega)]
      · intro j hj hjl
        have := hw (j + 1) (by omega) (by
          have e : (storeFlash s nvm (pageWord s buf k it)).currentWrite = s.currentWrite := rfl
          rw [e] at hjl
          omega)
        unfold u16
        omega

/-- The flash word iteration `it + j` of the word loop points to receives the
value of that iteration, once. -/
theorem NvmPageWrite_loop_touched (buf k : Nat) :
    ∀ (r it nvm : Nat) (s : Machine) (j : Nat),
      s.currentWrite.offsetFreeByteLocation ≤ 64 → nvm < 65536 → r ≤ 65536 → j < r →
      it + j ≤ (64 - s.currentWrite.offsetFreeByteLocation) / 4 →
      (NvmPageWrite_loop buf k r it nvm s).FLASH_MEM ((nvm + j) % 65536)
        = hwStore s.storeModel (s.FLASH_MEM ((nvm + j) % 65536)) (pageWord s buf k (it + j)) := by
  intro r
  induction r with
  | zero => intro it nvm s j _ _ _ hj _; omega
  | succ r ih =>
    intro it nvm s j hoff hnvm hr hj hlim
    rw [NvmPageWrite_loop_succ_eq buf k r it nvm s hoff]
    rw [if_neg (by omega)]
    cases j with
    | zero =>
      have e0 : (nvm + 0) % 65536 = nvm := by omega
      rw [e0, NvmPageWrite_loop_untouched buf k nvm r (it + 1) (u16 (nvm + 1))
        (storeFlash s nvm (pageWord s buf k it)) hoff (by unfold u16; omega) ?_]
      · simp only [storeFlash, Nat.add_zero, if_true]
      · intro j hj' _
        unfold u16
        omega
    | succ j =>
      have e1 : (u16 (nvm + 1) + j) % 65536 = (nvm + (j + 1)) % 65536 := by unfold u16; omega
      have h := ih (it + 1) (u16 (nvm + 1)) (storeFlash s nvm (pageWord s buf k it)) j hoff
        (by unfold u16; omega) (by omega) (by omega) (by
          show it + 1 + j ≤ (64 - s.currentWrite.offsetFreeByteLocation) / 4
          omega)
      rw [e1] at h
      rw [h]
      have e2 : it + 1 + j = it + (j + 1) := by omega
      rw [pageWord_storeFlash, e2]
      simp only [storeFlash]
      rw [if_neg (by omega)]

theorem getFlashMemIndex_eq (a : Nat) (ha : a < 4294967296) : getFlashMemIndex a = a / 4 := by
  simp only [getFlashMemIndex, FLASH_ADDRESS, OFFSET_ADDRESS, ROW_WITHIN_FLASH, u32, ROW_SIZE,
    FLASH_PAGE_SIZE, PAGES_PER_ROW, BYTES_PER_FLASH_INDEX]
  omega

theorem readWord_lt (s : Machine) (a : Nat) : readWord s a < 4294967296 := by
  unfold readWord
  omega

theorem readWord_byte (s : Machine) (a j : Nat) (hj : j < 4) :
    (readWord s a / 256 ^ j) % 256 = s.ram (a + j) % 256 := by
  unfold readWord
  have h4 : j = 0 ∨ j = 1 ∨ j = 2 ∨ j = 3 := by omega
  rcases h4 with h | h | h | h <;> subst h <;> norm_num <;> omega

theorem hwStore_of_good (m : StoreModel) (old v : Nat) (hv : v < 4294967296)
    (h : m = StoreModel.set ∨ old = CLEAR) : hwStore m old v = v := by
  cases m with
  | set => rfl
  | program =>
    rcases h with h | h
    · cases h
    · subst h
      have e : (CLEAR : Nat) = 2 ^ 32 - 1 := by norm_num
      show CLEAR &&& v = v
      rw [e, Nat.and_comm, Nat.and_pow_two_sub_one_eq_mod]
      omega

theorem hwStore_CLEAR_CLEAR (m : StoreModel) : hwStore m CLEAR CLEAR = CLEAR := by
  cases m <;> decide

theorem pageWriteEntry_FLASH_MEM (s : Machine) (a buf k : Nat) :
    (pageWriteEntry s a buf k).FLASH_MEM = s.FLASH_MEM := by
  have h : ¬ (NVMCTRL_CTRLA_CMD_PBC ||| NVMCTRL_CTRLA_CMDEX_KEY
      = NVMCTRL_CTRLA_CMD_ER ||| NVMCTRL_CTRLA_CMDEX_KEY) := by decide
  unfold pageWriteEntry writeCTRLA
  simp only [if_neg h]

theorem afterIteration_FLASH_MEM (s : Machine) (src d left : Nat) :
    (afterIteration s src d left).FLASH_MEM
      = (NvmPageWrite_loop src (sliceSize d left) 16 0 (u16 (getFlashMemIndex d))
          (pageWriteEntry (UpdatePageHandle s src d left).2 d src (sliceSize d left))).FLASH_MEM := by
  unfold afterIteration
  split <;> rfl

theorem afterIteration_bufferOffset (s : Machine) (src d left : Nat)
    (h : left - sliceSize d left ≠ 0) :
    (afterIteration s src d left).currentWrite.bufferOffset
      = u32 (s.currentWrite.bufferOffset + (sliceSize d left + 1) / 4) := by
  have hcw := (NvmPageWrite_loop_frame src (sliceSize d left) 16 0 (u16 (getFlashMemIndex d))
    (pageWriteEntry (UpdatePageHandle s src d left).2 d src (sliceSize d left))).1
  unfold afterIteration
  rw [if_neg h]
  simp only [hcw]
  rfl

/-- A flash word outside the words the page write at `d` points to is left
alone by an iteration of the write loop. -/
theorem afterIteration_untouched (s : Machine) (src d left w : Nat) (hd : d < 262144)
    (hw : ∀ j, j < 16 → j ≤ (64 - d % 64) / 4 → w ≠ (d / 4 + j) % 65536) :
    (afterIteration s src d left).FLASH_MEM w = s.FLASH_MEM w := by
  have hoff : (pageWriteEntry (UpdatePageHandle s src d left).2 d src
      (sliceSize d left)).currentWrite.offsetFreeByteLocation = d % 64 :=
    UpdatePageHandle_offset s src d left
  have hidx : u16 (getFlashMemIndex d) = d / 4 := by
    rw [getFlashMemIndex_eq d (by omega)]; unfold u16; omega
  rw [afterIteration_FLASH_MEM, hidx, NvmPageWrite_loop_untouched src (sliceSize d left) w 16 0
    (d / 4) _ (by rw [hoff]; omega) (by omega) ?_]
  · rw [pageWriteEntry_FLASH_MEM]; rfl
  · intro j hj hjl
    rw [hoff] at hjl
    exact hw j hj (by omega)

/-- The flash word iteration `j` of the page write at `d` points to receives
the value of that iteration. -/
theorem afterIteration_touched (s : Machine) (src d left j : Nat) (hd : d < 262144)
    (hj : j < 16) (hjl : j ≤ (64 - d % 64) / 4) :
    (afterIteration s src d left).FLASH_MEM ((d / 4 + j) % 65536)
      = hwStore s.storeModel (s.FLASH_MEM ((d / 4 + j) % 65536))
          (if j > (sliceSize d left - 1) / 4 then CLEAR
           else readWord s (src + 4 * u32 (j + s.currentWrite.bufferOffset))) := by
  have hoff : (pageWriteEntry (UpdatePageHandle s src d left).2 d src
      (sliceSize d left)).currentWrite.offsetFreeByteLocation = d % 64 :=
    UpdatePageHandle_offset s src d left
  have hidx : u16 (getFlashMemIndex d) = d / 4 := by
    rw [getFlashMemIndex_eq d (by omega)]; unfold u16; omega
  have h := NvmPageWrite_loop_touched src (sliceSize d left) 16 0 (d / 4)
    (pageWriteEntry (UpdatePageHandle s src d left).2 d src (sliceSize d left)) j
    (by rw [hoff]; omega) (by omega) (by omega) hj (by rw [hoff]; omega)
  rw [afterIteration_FLASH_MEM, hidx, h, pageWriteEntry_FLASH_MEM, Nat.zero_add]
  rfl

theorem byteOfWords_congr (m₁ m₂ : Nat → Nat) (a : Nat) (h : m₁ (a / 4) = m₂ (a / 4)) :
    byteOfWords m₁ a = byteOfWords m₂ a := by
  unfold byteOfWords
  rw [h]

/-- One iteration of the write loop at a word-aligned destination `d` puts
the bytes of its slice in place and keeps the bytes written before. -/
theorem afterIteration_bytes (src d0 n : Nat) (ram : Nat → Nat) (hd0 : d0 % 4 = 0)
    (hin : d0 + n ≤ 262144) (d left : Nat) (s : Machine) (h0 : left ≠ 0)
    (hram : s.ram = ram) (hle : d0 ≤ d) (hsum : d + left = d0 + n)
    (hdone : ∀ i, i < d - d0 → byteOfWords s.FLASH_MEM (d0 + i) = ram (src + i) % 256)
    (hd4 : d % 4 = 0) (hd64 : d = d0 ∨ d % 64 = 0)
    (hbo : s.currentWrite.bufferOffset = (d - d0) / 4)
    (hgood : ∀ w, d / 4 ≤ w → (s.storeModel = StoreModel.set ∨ s.FLASH_MEM w = CLEAR))
    (i : Nat) (hi : i < d + sliceSize d left - d0) :
    byteOfWords (afterIteration s src d left).FLASH_MEM (d0 + i) = ram (src + i) % 256 := by
  have hc1 := sliceSize_pos d left h0
  have hc2 := sliceSize_le_left d left
  have hc3 := sliceSize_le d left
  have hdlt : d < 262144 := by omega
  by_cases hlt : i < d - d0
  · rw [← hdone i hlt]
    apply byteOfWords_congr
    apply afterIteration_untouched s src d left _ hdlt
    intro j hj hjl
    clear hdone hgood hbo hram
    omega
  · have hj : (d0 + i) / 4 = (d / 4 + (i - (d - d0)) / 4) % 65536 := by
      clear hdone hgood hbo hram
      omega
    have hj16 : (i - (d - d0)) / 4 < 16 := by clear hdone hgood hbo hram; omega
    have hjl : (i - (d - d0)) / 4 ≤ (64 - d % 64) / 4 := by
      clear hdone hgood hbo hram; omega
    have hjc : ¬ (i - (d - d0)) / 4 > (sliceSize d left - 1) / 4 := by
      clear hdone hgood hbo hram; omega
    have hw : d / 4 ≤ (d0 + i) / 4 := by clear hdone hgood hbo hram; omega
    have ht := afterIteration_touched s src d left ((i - (d - d0)) / 4) hdlt hj16 hjl
    rw [if_neg hjc, ← hj] at ht
    rw [hwStore_of_good _ _ _ (readWord_lt _ _) (hgood _ hw)] at ht
    unfold byteOfWords
    rw [ht, readWord_byte s _ _ (Nat.mod_lt _ (by decide)), hram]
    congr 2
    unfold u32
    clear hdone hgood hram ht hj
    omega

/-- One iteration of the write loop that leaves bytes to write re-establishes
the invariant of the loop head: the next destination is page-aligned,
`bufferOffset` counts the words done, the words from the next destination on
are still blank (or the store model is `set`). -/
theorem afterIteration_invariant (d0 : Nat) (hd0 : d0 % 4 = 0) (src d left : Nat) (s : Machine)
    (hdlt : d + left ≤ 262144) (hle : d0 ≤ d) (hd4 : d % 4 = 0)
    (hbo : s.currentWrite.bufferOffset = (d - d0) / 4)
    (hgood : ∀ w, d / 4 ≤ w → (s.storeModel = StoreModel.set ∨ s.FLASH_MEM w = CLEAR))
    (hleft : left - sliceSize d left ≠ 0) :
    (d + sliceSize d left) % 4 = 0 ∧ (d + sliceSize d left) % 64 = 0
      ∧ (afterIteration s src d left).currentWrite.bufferOffset
          = (d + sliceSize d left - d0) / 4
      ∧ ∀ w, (d + sliceSize d left) / 4 ≤ w →
          ((afterIteration s src d left).storeModel = StoreModel.set
            ∨ (afterIteration s src d left).FLASH_MEM w = CLEAR) := by
  have hc : sliceSize d left = 64 - d % 64 := by unfold sliceSize at *; omega
  obtain ⟨_, _, _, hM, _⟩ := afterIteration_frame s src d left
  refine ⟨by omega, by omega, ?_, ?_⟩
  · rw [afterIteration_bufferOffset s src d left hleft, hbo]
    unfold u32
    clear hgood
    omega
  · intro w hw
    rw [hM]
    rcases hgood w (by omega) with hset | hclear
    · exact Or.inl hset
    · right
      by_cases hex : ∃ j, j < 16 ∧ j ≤ (64 - d % 64) / 4 ∧ w = (d / 4 + j) % 65536
      · obtain ⟨j, hj, hjl, hwj⟩ := hex
        have hjc : j > (sliceSize d left - 1) / 4 := by clear hgood; omega
        have ht := afterIteration_touched s src d left j (by omega) hj hjl
        rw [← hwj, hclear, if_pos hjc] at ht
        rw [ht]
        exact hwStore_CLEAR_CLEAR _
      · rw [afterIteration_untouched s src d left w (by omega)
          (fun j hj hjl hwj => hex ⟨j, hj, hjl, hwj⟩)]
        exact hclear

/-- Word-aligned destination inside the flash: the write loop returns and
leaves the source bytes in the flash bytes of the request.  The invariant at
the loop head, with `d` the current destination and `left` the bytes left:
the bytes before `d` are in place; while bytes are left, `d` is word-aligned
(page-aligned after the first iteration), `bufferOffset` counts the words done
and every word from `d / 4` on is either blank or stored to in the `set`
model. -/
theorem SamD2xxFlashWrite_loop_aligned (src d0 n : Nat) (ram : Nat → Nat)
    (hd0 : d0 % 4 = 0) (hin : d0 + n ≤ 262144) :
    ∀ (fuel d left : Nat) (s : Machine), left ≤ fuel → NVM_READY s = true → s.ram = ram →
      d0 ≤ d → d + left = d0 + n →
      (∀ i, i < d - d0 → byteOfWords s.FLASH_MEM (d0 + i) = ram (src + i) % 256) →
      (left ≠ 0 → d % 4 = 0 ∧ (d = d0 ∨ d % 64 = 0)
        ∧ s.currentWrite.bufferOffset = (d - d0) / 4
        ∧ ∀ w, d / 4 ≤ w → (s.storeModel = StoreModel.set ∨ s.FLASH_MEM w = CLEAR)) →
      ∃ s', SamD2xxFlashWrite_loop fuel src d left s = some s'
        ∧ ∀ i, i < n → byteOfWords s'.FLASH_MEM (d0 + i) = ram (src + i) % 256 := by
  intro fuel
  induction fuel with
  | zero =>
    intro d left s hfuel _ _ hle hsum hdone _
    have h0 : left = 0 := by omega
    subst h0
    exact ⟨s, SamD2xxFlashWrite_loop_zero 0 src d s, fun i hi => hdone i (by omega)⟩
  | succ fuel ih =>
    intro d left s hfuel hready hram hle hsum hdone hinv
    by_cases h0 : left = 0
    · subst h0
      exact ⟨s, SamD2xxFlashWrite_loop_zero _ src d s, fun i hi => hdone i (by omega)⟩
    · obtain ⟨hd4, hd64, hbo, hgood⟩ := hinv h0
      have hc2 := sliceSize_le_left d left
      have hR := (afterIteration_frame s src d left).2.2.1
      have hu : u32 (d + sliceSize d left) = d + sliceSize d left := by unfold u32; omega
      have hfuel' : left - sliceSize d left ≤ fuel := by
        have := sliceSize_pos d left h0
        omega
      rw [SamD2xxFlashWrite_loop_succ fuel src d left s h0 (by omega) hready, hu]
      exact ih (d + sliceSize d left) (left - sliceSize d left) (afterIteration s src d left)
        hfuel' (afterIteration_ready s src d left hready) (hR.trans hram) (by omega)
        (by omega)
        (afterIteration_bytes src d0 n ram hd0 hin d left s h0 hram hle hsum hdone hd4 hd64
          hbo hgood)
        (fun hleft =>
          have h := afterIteration_invariant d0 hd0 src d left s (by omega) hle hd4 hbo hgood
            hleft
          ⟨h.1, Or.inr h.2.1, h.2.2.1, h.2.2.2⟩)

/-- C2 as stated fails.  A misaligned request: 4 bytes `0x11 0x22 0x33 0x44`
written to destination 1 on blank flash are admitted, and flash byte 1 then
holds `0x22`, not source byte 0.  A request ending one byte past the flash: 5
bytes written to destination 262140 are admitted, and flash byte 262144 keeps
the erased value instead of source byte 4. -/
theorem C2_byte_granular_write_counterexample :
    DataSizeTests 1 4 = FLASH_SUCCESS
      ∧ (SamD2xxFlashWrite 4 (blankMachine (fun a => 17 * (a + 1)) StoreModel.program) 0 1 4).map
          (fun r => byteOfWords r.2.FLASH_MEM (1 + 0)) = some 34
      ∧ (blankMachine (fun a => 17 * (a + 1)) StoreModel.program).ram (0 + 0) % 256 = 17
      ∧ DataSizeTests 262140 5 = FLASH_SUCCESS
      ∧ (SamD2xxFlashWrite 5 (blankMachine (fun a => 17 * (a + 1)) StoreModel.program)
          0 262140 5).map (fun r => byteOfWords r.2.FLASH_MEM (262140 + 4)) = some 255
      ∧ (blankMachine (fun a => 17 * (a + 1)) StoreModel.program).ram (0 + 4) % 256 = 85 := by
  decide!

/-- C2 (amended). Generic variant, word-aligned destination inside the flash:
for every request `DataSizeTests` admits with `destinationAddress % 4 = 0` and
`destinationAddress + numberOfBytes ≤ FLASH_SIZE`, started on a ready controller
with the cursor in its zero state on blank flash (a store to `FLASH_MEM[w]`
programming word `w`, or setting it), `SamD2xxFlashWrite` returns and the flash
byte at `destinationAddress + i` equals source byte `i` for every
`i < numberOfBytes`. -/
theorem C2_aligned_write_bytes (fuel : Nat) (s : Machine) (src d n : Nat)
    (hadm : DataSizeTests d n = FLASH_SUCCESS) (halign : d % 4 = 0)
    (hin : d + n ≤ FLASH_ADDR + FLASH_SIZE) (hready : NVM_READY s = true)
    (hcur : s.currentWrite = CurrentPageInfo_t.zero)
    (hblank : ∀ w, s.FLASH_MEM w = CLEAR) (hfuel : n ≤ fuel) :
    ∃ r s', SamD2xxFlashWrite fuel s src d n = some (r, s')
      ∧ ∀ i, i < n → byteOfWords s'.FLASH_MEM (d + i) = s.ram (src + i) % 256 := by
  simp only [FLASH_ADDR, FLASH_SIZE] at hin
  obtain ⟨s', hrun, hbytes⟩ :=
    SamD2xxFlashWrite_loop_aligned src d n s.ram halign (by omega) fuel d n s hfuel hready rfl
      (Nat.le_refl d) rfl (fun i hi => by omega)
      (fun _ => ⟨halign, Or.inl rfl, by rw [hcur]; simp [CurrentPageInfo_t.zero],
        fun w _ => Or.inr (hblank w)⟩)
  refine ⟨NvmErrorStatus s', s', ?_, hbytes⟩
  unfold SamD2xxFlashWrite
  rw [hadm, hrun]
  rfl

/-- Witness for C2 (amended): 70 bytes to destination 60, which is word-aligned and
not page-aligned, on a ready blank machine. -/
theorem C2_aligned_write_bytes_witness :
    ∃ r s', SamD2xxFlashWrite 70 (blankMachine (fun a => 17 * (a + 1)) StoreModel.program)
        0 60 70 = some (r, s')
      ∧ ∀ i, i < 70 → byteOfWords s'.FLASH_MEM (60 + i)
          = (blankMachine (fun a => 17 * (a + 1)) StoreModel.program).ram (0 + i) % 256 :=
  C2_aligned_write_bytes 70 (blankMachine (fun a => 17 * (a + 1)) StoreModel.program) 0 60 70
    (by decide) (by decide) (by decide) (by decide) rfl (fun _ => rfl) (by decide)

theorem NvmPageWrite_not_ready (s : Machine) (a buf k : Nat) (h : NVM_READY s = false) :
    NvmPageWrite s a buf k = none := by
  have hr : NVM_READY { s with log := s.log ++ [Event.pageWrite a buf (u8 k)] } = false := h
  simp only [NvmPageWrite, WAIT_FOR_NVM, hr]
  rfl

theorem SamD2xxFlashWrite_loop_not_ready (fuel src d left : Nat) (s : Machine)
    (hleft : left ≠ 0) (h : NVM_READY s = false) :
    SamD2xxFlashWrite_loop fuel src d left s = none := by
  cases fuel with
  | zero => unfold SamD2xxFlashWrite_loop; simp [hleft]
  | succ fuel =>
    have hr : NVM_READY (UpdatePageHandle s src d left).2 = false := h
    unfold SamD2xxFlashWrite_loop
    simp only [hleft, if_false]
    rw [NvmPageWrite_not_ready _ _ _ _ hr]

/-- Whenever the write loop, entered with bytes to write, returns, the cursor
is in its zero state. -/
theorem SamD2xxFlashWrite_loop_cursor (src : Nat) :
    ∀ (fuel d left : Nat) (s s' : Machine), left ≠ 0 → left < 4294967296 →
      SamD2xxFlashWrite_loop fuel src d left s = some s' →
      s'.currentWrite = CurrentPageInfo_t.zero := by
  intro fuel
  induction fuel with
  | zero =>
    intro d left s s' hleft _ h
    unfold SamD2xxFlashWrite_loop at h
    simp [hleft] at h
  | succ fuel ih =>
    intro d left s s' hleft hl h
    cases hready : NVM_READY s with
    | false =>
      rw [SamD2xxFlashWrite_loop_not_ready _ src d left s hleft hready] at h
      cases h
    | true =>
      rw [SamD2xxFlashWrite_loop_succ fuel src d left s hleft hl hready] at h
      by_cases hlast : left - sliceSize d left = 0
      · rw [hlast, SamD2xxFlashWrite_loop_zero] at h
        cases h
        exact afterIteration_cursor_last s src d left hlast
      · exact ih _ _ _ s' hlast (by omega) h

/-- C11. Generic variant: for every request `DataSizeTests` admits, whenever
`SamD2xxFlashWrite` returns, the cursor `currentWrite` is in the zero state
(`currentPageBuffer`, `numberOfBytesCurrentPage`, `offsetFreeByteLocation` and
`bufferOffset` all 0), whatever it held before the call; and the call does
return on a ready controller with fuel for `numberOfBytes` iterations. -/
theorem C11_completion_resets_cursor (fuel : Nat) (s : Machine) (src d n : Nat)
    (hadm : DataSizeTests d n = FLASH_SUCCESS) :
    (∀ r s', SamD2xxFlashWrite fuel s src d n = some (r, s') →
        s'.currentWrite.currentPageBuffer = 0 ∧ s'.currentWrite.numberOfBytesCurrentPage = 0
          ∧ s'.currentWrite.offsetFreeByteLocation = 0 ∧ s'.currentWrite.bufferOffset = 0)
      ∧ (NVM_READY s = true → n ≤ fuel →
          ∃ r s', SamD2xxFlashWrite fuel s src d n = some (r, s')
            ∧ s'.currentWrite = CurrentPageInfo_t.zero) := by
  have hn := (DataSizeTests_success_iff d n).mp hadm
  have key : ∀ r s', SamD2xxFlashWrite fuel s src d n = some (r, s') →
      s'.currentWrite = CurrentPageInfo_t.zero := by
    intro r s' h
    unfold SamD2xxFlashWrite at h
    rw [hadm] at h
    simp only [reduceCtorEq, if_false] at h
    cases hl : SamD2xxFlashWrite_loop fuel src d n s with
    | none => rw [hl] at h; cases h
    | some s1 =>
      rw [hl] at h
      cases h
      exact SamD2xxFlashWrite_loop_cursor src fuel d n s _ (by omega) (by omega) hl
  refine ⟨fun r s' h => ?_, fun hready hfuel => ?_⟩
  · rw [key r s' h]
    exact ⟨rfl, rfl, rfl, rfl⟩
  · obtain ⟨s', calls, hrun, _⟩ :=
      SamD2xxFlashWrite_loop_slices src fuel d n s (by omega) hfuel hready
    have hres : SamD2xxFlashWrite fuel s src d n = some (NvmErrorStatus s', s') := by
      unfold SamD2xxFlashWrite
      rw [hadm, hrun]
      rfl
    exact ⟨_, _, hres, key _ _ hres⟩

/-- Witness for C11: 100 bytes to destination 40, the cursor not zero before the call. -/
theorem C11_completion_resets_cursor_witness :
    (∀ r s', SamD2xxFlashWrite 100 staleCursorMachine 0 40 100 = some (r, s') →
        s'.currentWrite.currentPageBuffer = 0 ∧ s'.currentWrite.numberOfBytesCurrentPage = 0
          ∧ s'.currentWrite.offsetFreeByteLocation = 0 ∧ s'.currentWrite.bufferOffset = 0)
      ∧ (NVM_READY staleCursorMachine = true → 100 ≤ 100 →
          ∃ r s', SamD2xxFlashWrite 100 staleCursorMachine 0 40 100 = some (r, s')
            ∧ s'.currentWrite = CurrentPageInfo_t.zero) :=
  C11_completion_resets_cursor 100 staleCursorMachine 0 40 100 (by decide)

/-- C14. The admitted request of 24 bytes at destination 40 (page 0 is words
0 to 15) makes one `NvmPageWrite` call, which stores to the words 10 to 16:
the last store, of the filler, goes to word 16, the first word of page 1. -/
theorem C14_page_write_stores_past_page_end :
    DataSizeTests 40 24 = FLASH_SUCCESS
      ∧ 40 + 24 ≤ FLASH_ADDR + FLASH_SIZE
      ∧ (SamD2xxFlashWrite 24 (blankMachine (fun _ => 0) StoreModel.program) 0 40 24).map
          (fun r => r.2.log)
        = some [Event.pageWrite 40 0 24,
            Event.command (NVMCTRL_CTRLA_CMD_PBC ||| NVMCTRL_CTRLA_CMDEX_KEY) 0,
            Event.store 10 0, Event.store 11 0, Event.store 12 0, Event.store 13 0,
            Event.store 14 0, Event.store 15 0, Event.store 16 CLEAR]
      ∧ ¬ (16 * (40 / 64) ≤ 16 ∧ 16 < 16 * (40 / 64) + 16) := by
  decide!

theorem NvmPageWrite_loop_log (buf k : Nat) :
    ∀ (r it nvm : Nat) (s : Machine), s.currentWrite.offsetFreeByteLocation = 0 →
      it + r ≤ 16 → nvm < 65536 →
      (NvmPageWrite_loop buf k r it nvm s).log
        = s.log ++ (List.range r).map
            (fun j => Event.store ((nvm + j) % 65536) (pageWord s buf k (it + j))) := by
  intro r
  induction r with
  | zero => intro it nvm s _ _ _; simp [NvmPageWrite_loop]
  | succ r ih =>
    intro it nvm s hoff hr hnvm
    rw [NvmPageWrite_loop_succ_eq buf k r it nvm s (by omega), hoff, if_neg (by omega)]
    rw [ih (it + 1) (u16 (nvm + 1)) (storeFlash s nvm (pageWord s buf k it)) hoff (by omega)
      (by unfold u16; omega)]
    rw [List.range_succ_eq_map, List.map_cons, List.map_map]
    have e : (storeFlash s nvm (pageWord s buf k it)).log
        = s.log ++ [Event.store nvm (pageWord s buf k it)] := rfl
    rw [e, List.append_assoc]
    congr 1
    simp only [List.singleton_append, Nat.add_zero]
    congr 1
    · rw [Nat.mod_eq_of_lt hnvm]
    · apply List.map_congr_left
      intro j _
      have e1 : (u16 (nvm + 1) + j) % 65536 = (nvm + (j + 1)) % 65536 := by unfold u16; omega
      have e2 : it + 1 + j = it + (j + 1) := by omega
      simp only [Function.comp, pageWord_storeFlash, e1, e2, Nat.succ_eq_add_one]

/-- C15. Generic variant: for a page-aligned address inside the flash, the
cursor's `offsetFreeByteLocation` being 0, and a byte count `1 ≤ k ≤ 64`, on a
ready controller `NvmPageWrite(address, buffer, k)` clears the page buffer and
then stores exactly 16 words, to the word indices `address / 4 + i` for
`i = 0, ..., 15` in this order; word `i` receives the source word
`buffer[i + bufferOffset]` when `i ≤ (k - 1) / 4` and the filler `0xFFFFFFFF`
otherwise. -/
theorem C15_filler_padding (s : Machine) (address buf k : Nat)
    (hready : NVM_READY s = true) (hoff : s.currentWrite.offsetFreeByteLocation = 0)
    (halign : address % FLASH_PAGE_SIZE = 0) (hin : address < FLASH_ADDR + FLASH_SIZE)
    (hk1 : 1 ≤ k) (hk2 : k ≤ FLASH_PAGE_SIZE) :
    ∃ s', NvmPageWrite s address buf k = some s'
      ∧ s'.log = s.log
          ++ [Event.pageWrite address buf k,
              Event.command (NVMCTRL_CTRLA_CMD_PBC ||| NVMCTRL_CTRLA_CMDEX_KEY) s.ADDR]
          ++ (List.range 16).map (fun i => Event.store (address / 4 + i)
              (if i ≤ (k - 1) / 4 then
                readWord s (buf + 4 * u32 (i + s.currentWrite.bufferOffset))
               else CLEAR)) := by
  simp only [FLASH_PAGE_SIZE, FLASH_ADDR, FLASH_SIZE] at halign hin hk2
  have hk : u8 k = k := by unfold u8; omega
  have hidx : u16 (getFlashMemIndex address) = address / 4 := by
    rw [getFlashMemIndex_eq address (by omega)]; unfold u16; omega
  refine ⟨_, NvmPageWrite_eq s address buf k hready, ?_⟩
  rw [NvmPageWrite_loop_log buf (u8 k) 16 0 _ (pageWriteEntry s address buf k) hoff
    (by omega) (by rw [hidx]; omega), hidx, hk]
  have e : (pageWriteEntry s address buf k).log = s.log
      ++ [Event.pageWrite address buf k,
          Event.command (NVMCTRL_CTRLA_CMD_PBC ||| NVMCTRL_CTRLA_CMDEX_KEY) s.ADDR] := by
    simp [pageWriteEntry, writeCTRLA, hk]
  rw [e]
  congr 1
  apply List.map_congr_left
  intro i hi
  have hi16 : i < 16 := List.mem_range.mp hi
  have e1 : (address / 4 + i) % 65536 = address / 4 + i := by omega
  rw [e1, Nat.zero_add]
  unfold pageWord
  by_cases h : i ≤ (k - 1) / 4
  · rw [if_pos h, if_neg (by omega)]
    rfl
  · rw [if_neg h, if_pos (by omega)]

/-- Witness for C15: 10 bytes at the page-aligned address 128 on a ready blank machine. -/
theorem C15_filler_padding_witness :
    ∃ s', NvmPageWrite (blankMachine (fun a => a) StoreModel.program) 128 0 10 = some s'
      ∧ s'.log = (blankMachine (fun a => a) StoreModel.program).log
          ++ [Event.pageWrite 128 0 10,
              Event.command (NVMCTRL_CTRLA_CMD_PBC ||| NVMCTRL_CTRLA_CMDEX_KEY)
                (blankMachine (fun a => a) StoreModel.program).ADDR]
          ++ (List.range 16).map (fun i => Event.store (128 / 4 + i)
              (if i ≤ (10 - 1) / 4 then
                readWord (blankMachine (fun a => a) StoreModel.program)
                  (0 + 4 * u32 (i +
                    (blankMachine (fun a => a) StoreModel.program).currentWrite.bufferOffset))
               else CLEAR)) :=
  C15_filler_padding (blankMachine (fun a => a) StoreModel.program) 128 0 10
    (by decide) rfl (by decide) (by decide) (by decide) (by decide)

theorem readWord_congr (s₁ s₂ : Machine) (a : Nat) (h : s₁.ram = s₂.ram) :
    readWord s₁ a = readWord s₂ a := by
  unfold readWord
  rw [h]

/-- One iteration of the write loop at a word-aligned destination `d` with a
multiple of 4 bytes left puts the words of its slice in place and keeps the
words written before. -/
theorem afterIteration_words (s0 : Machine) (src d0 : Nat) (hd0 : d0 % 4 = 0)
    (d left : Nat) (s : Machine) (h0 : left ≠ 0) (hin : d + left ≤ 262144)
    (hram : s.ram = s0.ram) (hle : d0 ≤ d) (hleft4 : left % 4 = 0)
    (hdone : ∀ j, j < (d - d0) / 4 → s.FLASH_MEM (d0 / 4 + j) = readWord s0 (src + 4 * j))
    (hd4 : d % 4 = 0) (hd64 : d = d0 ∨ d % 64 = 0)
    (hbo : s.currentWrite.bufferOffset = (d - d0) / 4)
    (hgood : ∀ w, d / 4 ≤ w → (s.storeModel = StoreModel.set ∨ s.FLASH_MEM w = CLEAR))
    (j : Nat) (hj : j < (d + sliceSize d left - d0) / 4) :
    (afterIteration s src d left).FLASH_MEM (d0 / 4 + j) = readWord s0 (src + 4 * j) := by
  have hc1 := sliceSize_pos d left h0
  have hc2 := sliceSize_le_left d left
  have hc3 := sliceSize_le d left
  have hc4 : sliceSize d left % 4 = 0 := by unfold sliceSize; omega
  have hdlt : d < 262144 := by omega
  by_cases hlt : j < (d - d0) / 4
  · rw [← hdone j hlt]
    apply afterIteration_untouched s src d left _ hdlt
    intro j' hj' hjl
    clear hdone hgood hbo hram
    omega
  · have hidx : d0 / 4 + j = (d / 4 + (j - (d - d0) / 4)) % 65536 := by
      clear hdone hgood hbo hram
      omega
    have hj16 : j - (d - d0) / 4 < 16 := by clear hdone hgood hbo hram; omega
    have hjl : j - (d - d0) / 4 ≤ (64 - d % 64) / 4 := by
      clear hdone hgood hbo hram; omega
    have hjc : ¬ j - (d - d0) / 4 > (sliceSize d left - 1) / 4 := by
      clear hdone hgood hbo hram; omega
    have hw : d / 4 ≤ d0 / 4 + j := by clear hdone hgood hbo hram; omega
    have ht := afterIteration_touched s src d left (j - (d - d0) / 4) hdlt hj16 hjl
    rw [if_neg hjc, ← hidx] at ht
    rw [hwStore_of_good _ _ _ (readWord_lt _ _) (hgood _ hw)] at ht
    rw [ht, readWord_congr s s0 _ hram]
    congr 2
    unfold u32
    clear hdone hgood hram ht hidx
    omega

/-- Word-aligned destination, a multiple of 4 bytes, inside the flash: the
write loop returns, leaves the source words in the flash words of the request,
and enters every iteration with `bufferOffset` equal to the number of bytes
already written divided by 4. -/
theorem SamD2xxFlashWrite_loop_words (s0 : Machine) (src d0 n : Nat)
    (hd0 : d0 % 4 = 0) (hin : d0 + n ≤ 262144) :
    ∀ (fuel d left : Nat) (s : Machine), left ≤ fuel → NVM_READY s = true →
      s.ram = s0.ram → d0 ≤ d → d + left = d0 + n → left % 4 = 0 →
      (∀ j, j < (d - d0) / 4 → s.FLASH_MEM (d0 / 4 + j) = readWord s0 (src + 4 * j)) →
      (left ≠ 0 → d % 4 = 0 ∧ (d = d0 ∨ d % 64 = 0)
        ∧ s.currentWrite.bufferOffset = (d - d0) / 4
        ∧ ∀ w, d / 4 ≤ w → (s.storeModel = StoreModel.set ∨ s.FLASH_MEM w = CLEAR)) →
      ∃ s', SamD2xxFlashWrite_loop fuel src d left s = some s'
        ∧ (∀ j, j < n / 4 → s'.FLASH_MEM (d0 / 4 + j) = readWord s0 (src + 4 * j))
        ∧ ∀ p ∈ bufferOffsetTrace src fuel d left s, p.2 = (p.1 - d0) / 4 := by
  intro fuel
  induction fuel with
  | zero =>
    intro d left s hfuel _ _ hle hsum _ hdone _
    have h0 : left = 0 := by omega
    subst h0
    exact ⟨s, SamD2xxFlashWrite_loop_zero 0 src d s, fun j hj => hdone j (by omega),
      fun p hp => by simp [bufferOffsetTrace] at hp⟩
  | succ fuel ih =>
    intro d left s hfuel hready hram hle hsum hleft4 hdone hinv
    by_cases h0 : left = 0
    · subst h0
      exact ⟨s, SamD2xxFlashWrite_loop_zero _ src d s, fun j hj => hdone j (by omega),
        fun p hp => by simp [bufferOffsetTrace] at hp⟩
    · obtain ⟨hd4, hd64, hbo, hgood⟩ := hinv h0
      have hc2 := sliceSize_le_left d left
      have hc4 : sliceSize d left % 4 = 0 := by unfold sliceSize; omega
      have hR := (afterIteration_frame s src d left).2.2.1
      have hu : u32 (d + sliceSize d left) = d + sliceSize d left := by unfold u32; omega
      have hfuel' : left - sliceSize d left ≤ fuel := by
        have := sliceSize_pos d left h0
        omega
      obtain ⟨s', hrun, hwords, htrace⟩ :=
        ih (d + sliceSize d left) (left - sliceSize d left) (afterIteration s src d left)
          hfuel' (afterIteration_ready s src d left hready) (hR.trans hram) (by omega)
          (by omega) (by omega)
          (afterIteration_words s0 src d0 hd0 d left s h0 (by omega) hram hle hleft4 hdone hd4
            hd64 hbo hgood)
          (fun hleft =>
            have h := afterIteration_invariant d0 hd0 src d left s (by omega) hle hd4 hbo hgood
              hleft
            ⟨h.1, Or.inr h.2.1, h.2.2.1, h.2.2.2⟩)
      refine ⟨s', ?_, hwords, ?_⟩
      · rw [SamD2xxFlashWrite_loop_succ fuel src d left s h0 (by omega) hready, hu]
        exact hrun
      · intro p hp
        simp only [bufferOffsetTrace, h0, if_false, hu, List.mem_cons] at hp
        rcases hp with rfl | hp
        · exact hbo
        · exact htrace p hp

/-- C19 as stated fails for the write of the whole flash: the request of
262144 bytes at destination 0 is word-aligned, a multiple of 4 and ends at the
end of the flash, `SamD2xxFlashWrite` returns `FLASH_ERR_BYTES`, and flash word
0 still holds `0xFFFFFFFF`, not source word 0. -/
theorem C19_whole_flash_write_counterexample :
    0 % 4 = 0 ∧ 262144 % 4 = 0 ∧ 4 ≤ 262144 ∧ 0 + 262144 ≤ FLASH_SIZE
      ∧ (SamD2xxFlashWrite 262144 (blankMachine (fun _ => 0) StoreModel.set) 0 0 262144).map
          (fun r => (r.1, r.2.FLASH_MEM (0 / 4 + 0))) = some (FLASH_ERR_BYTES, CLEAR)
      ∧ readWord (blankMachine (fun _ => 0) StoreModel.set) (0 + 4 * 0) = 0 := by
  decide

/-- C19 (amended). Generic variant, word-aligned writes: for every request
with `destinationAddress % 4 = 0`, `numberOfBytes % 4 = 0`,
`4 ≤ numberOfBytes < FLASH_SIZE` and
`destinationAddress + numberOfBytes ≤ FLASH_SIZE`, started on a ready controller
with the cursor in its zero state, a store to `FLASH_MEM[w]` setting word `w`,
`SamD2xxFlashWrite` returns and flash word `destinationAddress / 4 + j` equals
source word `j` for every `j < numberOfBytes / 4`; every iteration of the loop
is entered with `bufferOffset` equal to the number of bytes already written
divided by 4. -/
theorem C19_word_aligned_write (fuel : Nat) (s : Machine) (src d n : Nat)
    (halign : d % 4 = 0) (hn4 : n % 4 = 0) (hn : 4 ≤ n) (hlt : n < FLASH_SIZE)
    (hin : d + n ≤ FLASH_SIZE) (hready : NVM_READY s = true)
    (hcur : s.currentWrite = CurrentPageInfo_t.zero)
    (hset : s.storeModel = StoreModel.set) (hfuel : n ≤ fuel) :
    ∃ r s', SamD2xxFlashWrite fuel s src d n = some (r, s')
      ∧ (∀ j, j < n / 4 → s'.FLASH_MEM (d / 4 + j) = readWord s (src + 4 * j))
      ∧ ∀ p ∈ bufferOffsetTrace src fuel d n s, p.2 = (p.1 - d) / 4 := by
  simp only [FLASH_SIZE] at hin hlt
  have hadm : DataSizeTests d n = FLASH_SUCCESS := by
    rw [DataSizeTests_success_iff]
    unfold u32
    omega
  obtain ⟨s', hrun, hwords, htrace⟩ :=
    SamD2xxFlashWrite_loop_words s src d n halign hin fuel d n s hfuel hready rfl
      (Nat.le_refl d) rfl hn4 (fun j hj => by omega)
      (fun _ => ⟨halign, Or.inl rfl, by rw [hcur]; simp [CurrentPageInfo_t.zero],
        fun w _ => Or.inl hset⟩)
  refine ⟨NvmErrorStatus s', s', ?_, hwords, htrace⟩
  unfold SamD2xxFlashWrite
  rw [hadm, hrun]
  rfl

/-- Witness for C19 (amended): 72 bytes to destination 60 on a machine whose
flash words are all 0. -/
theorem C19_word_aligned_write_witness :
    ∃ r s', SamD2xxFlashWrite 72
        { blankMachine (fun a => a) StoreModel.set with FLASH_MEM := fun _ => 0 } 0 60 72
        = some (r, s')
      ∧ (∀ j, j < 72 / 4 → s'.FLASH_MEM (60 / 4 + j)
          = readWord { blankMachine (fun a => a) StoreModel.set with FLASH_MEM := fun _ => 0 }
              (0 + 4 * j))
      ∧ ∀ p ∈ bufferOffsetTrace 0 72 60 72
          { blankMachine (fun a => a) StoreModel.set with FLASH_MEM := fun _ => 0 },
          p.2 = (p.1 - 60) / 4 :=
  C19_word_aligned_write 72
    { blankMachine (fun a => a) StoreModel.set with FLASH_MEM := fun _ => 0 } 0 60 72
    (by decide) (by decide) (by decide) (by decide) (by decide) (by decide) rfl rfl (by decide)

end Generic

/-! ## Theorems: row-buffered variant -/

namespace RowBuffered
open NvmStatus_e

theorem rowBuffered_getPageAddress_eq (d : Nat) : getPageAddress d = (d / 64 % 65536) * 64 := by
  simp only [getPageAddress, u8, u16, u32, PAGE_WITHIN_ROW, ROW_WITHIN_FLASH,
    FLASH_PAGE_SIZE, PAGES_PER_ROW]
  omega

/-- C6. For every address `a < FLASH_SIZE`, the coordinate `UpdateCurrentBuffer`
stores (`currentRowNumber = ROW_WITHIN_FLASH(a)`, `currentPagePosition =
(a mod ROW_SIZE) / FLASH_PAGE_SIZE`, `offsetFreeLoc = a - getPageAddress(a)`,
with `getPageAddress` the same function in both variants) satisfies
`currentPagePosition < PAGES_PER_ROW`, `offsetFreeLoc < FLASH_PAGE_SIZE`, and
reconstructs the address:
`currentRowNumber * ROW_SIZE + currentPagePosition * FLASH_PAGE_SIZE + offsetFreeLoc = a`. -/
theorem C6_address_round_trip (h : currentRowBuffer_t) (a : Nat) (ha : a < FLASH_SIZE) :
    (UpdateCurrentBuffer h a).2.currentRowNumber = ROW_WITHIN_FLASH a
      ∧ (UpdateCurrentBuffer h a).2.currentPagePosition = (a % ROW_SIZE) / FLASH_PAGE_SIZE
      ∧ (UpdateCurrentBuffer h a).2.offsetFreeLoc = a - getPageAddress a
      ∧ getPageAddress a = Generic.getPageAddress a
      ∧ (UpdateCurrentBuffer h a).2.currentPagePosition < PAGES_PER_ROW
      ∧ (UpdateCurrentBuffer h a).2.offsetFreeLoc < FLASH_PAGE_SIZE
      ∧ (UpdateCurrentBuffer h a).2.currentRowNumber * ROW_SIZE
          + (UpdateCurrentBuffer h a).2.currentPagePosition * FLASH_PAGE_SIZE
          + (UpdateCurrentBuffer h a).2.offsetFreeLoc = a := by
  simp only [FLASH_SIZE] at ha
  unfold UpdateCurrentBuffer
  dsimp only
  simp only [rowBuffered_getPageAddress_eq, Generic.getPageAddress_eq, u8, u16, u32,
    PAGE_WITHIN_ROW, ROW_WITHIN_FLASH, ROW_SIZE, FLASH_PAGE_SIZE, PAGES_PER_ROW]
  refine ⟨?_, ?_, ?_, trivial, ?_, ?_, ?_⟩ <;> omega

/-- Witness for C6: address 1000. -/
theorem C6_address_round_trip_witness :
    (UpdateCurrentBuffer initialHandle 1000).2.currentRowNumber = ROW_WITHIN_FLASH 1000
      ∧ (UpdateCurrentBuffer initialHandle 1000).2.currentPagePosition
          = (1000 % ROW_SIZE) / FLASH_PAGE_SIZE
      ∧ (UpdateCurrentBuffer initialHandle 1000).2.offsetFreeLoc = 1000 - getPageAddress 1000
      ∧ getPageAddress 1000 = Generic.getPageAddress 1000
      ∧ (UpdateCurrentBuffer initialHandle 1000).2.currentPagePosition < PAGES_PER_ROW
      ∧ (UpdateCurrentBuffer initialHandle 1000).2.offsetFreeLoc < FLASH_PAGE_SIZE
      ∧ (UpdateCurrentBuffer initialHandle 1000).2.currentRowNumber * ROW_SIZE
          + (UpdateCurrentBuffer initialHandle 1000).2.currentPagePosition * FLASH_PAGE_SIZE
          + (UpdateCurrentBuffer initialHandle 1000).2.offsetFreeLoc = 1000 :=
  C6_address_round_trip initialHandle 1000 (by decide)

theorem WriteManager_loop_diverges (src n : Nat) (hn : 256 ≤ n) :
    ∀ (fuel it d cpo : Nat) (status : NvmStatus_e) (s : Machine), it < 256 →
      WriteManager_loop src n fuel it d cpo status s = none := by
  intro fuel
  induction fuel with
  | zero =>
    intro it d cpo status s hit
    have h : it < n := by omega
    unfold WriteManager_loop
    simp only [h, not_true_eq_false, if_false]
  | succ fuel ih =>
    intro it d cpo status s hit
    have h : it < n := by omega
    have hu : u8 (it + 1) < 256 := by unfold u8; omega
    unfold WriteManager_loop
    simp only [h, not_true_eq_false, if_false]
    split
    · split
      · rfl
      · split
        · exact ih _ _ _ _ _ hu
        · split
          · rfl
          · exact ih _ _ _ _ _ hu
    · exact ih _ _ _ _ _ hu

/-- C20. For `numberOfBytes = 256` and for `numberOfBytes = 65535` the
row-buffered `SamD2xxFlashWrite` does not return, whatever the fuel, the
machine, the destination and the source: the `uint8_t` loop counter of
`WriteManager` never reaches `numberOfBytes`. -/
theorem C20_write_of_256_bytes_never_returns (fuel : Nat) (s : Machine) (d src : Nat) :
    SamD2xxFlashWrite fuel s d src 256 = none
      ∧ SamD2xxFlashWrite fuel s d src 65535 = none := by
  constructor
  · exact WriteManager_loop_diverges src (u16 256) (by decide) fuel 0 _ _ _ _ (by decide)
  · exact WriteManager_loop_diverges src (u16 65535) (by decide) fuel 0 _ _ _ _ (by decide)

/-- C13. Blank flash, shadow just initialised: the write of 65 bytes to
destination 1 stays inside row 0, and afterwards the shadow byte at row offset
`1 + 64` still holds `0xFF` while source byte 64 (value 64) sits at row offset
128. -/
theorem C13_shadow_misplaces_bytes :
    65 ≤ 255 ∧ 1 % ROW_SIZE + 65 < ROW_SIZE
      ∧ (SamD2xxFlashWrite 65 freshMachine 1 0 65).map
          (fun r => (r.2.flashMemHandle.rowData (1 % ROW_SIZE + 64),
            r.2.flashMemHandle.rowData 128)) = some (0xFF, 64)
      ∧ freshMachine.ram (0 + 64) % 256 = 64 := by
  decide!

/-- C16. Flash page 0 blank, word 16 (in page 1) programmed: the write of 64
bytes to destination 0 completes page 0, stores nothing to the flash array and
issues an erase-row command. -/
theorem C16_blank_page_erased_instead_of_programmed :
    (∀ w, w < 16 → nextPageProgrammed.FLASH_MEM w = CLEAR)
      ∧ (SamD2xxFlashWrite 64 nextPageProgrammed 0 0 64).map (fun r => r.2.log)
        = some [Event.fullPageWrite 0 0, Event.rowErase 0,
            Event.command (NVMCTRL_CTRLA_CMD_PBC ||| NVMCTRL_CTRLA_CMDEX_KEY) 0,
            Event.statusStore NVMCTRL_STATUS_MASK,
            Event.command (NVMCTRL_CTRLA_CMD_ER ||| NVMCTRL_CTRLA_CMDEX_KEY) 0] := by
  decide!

/-- C17. Flash page 0 programmed: the write of 64 bytes to destination 0
completes page 0, erases row 0 and returns `e_Nvm_Ready` without storing
anything to the flash array afterwards; flash word 0 is then blank, not the
first word of the shadow's page slice, and `currentPagePosition` is still 0. -/
theorem C17_no_program_after_erase :
    (SamD2xxFlashWrite 64 pageZeroProgrammed 0 0 64).map
        (fun r => (r.1, r.2.log, r.2.FLASH_MEM 0, readShadowWord r.2.flashMemHandle 0,
          r.2.flashMemHandle.currentPagePosition))
      = some (e_Nvm_Ready,
          [Event.fullPageWrite 0 0, Event.rowErase 0,
            Event.command (NVMCTRL_CTRLA_CMD_PBC ||| NVMCTRL_CTRLA_CMDEX_KEY) 0,
            Event.statusStore NVMCTRL_STATUS_MASK,
            Event.command (NVMCTRL_CTRLA_CMD_ER ||| NVMCTRL_CTRLA_CMDEX_KEY) 0],
          CLEAR, 0x04030201, 0) := by
  decide!

/-- C18. Blank flash: `NvmFullPageWrite(0, rowData)` stores 17 words, to the
flash words 0 to 16, word `i` receiving word `i` of `rowData`; the last store
goes to word 16, outside page 0, and takes the bytes 64 to 67 of `rowData`,
beyond the 64-byte slice of page 0. -/
theorem C18_full_page_write_stores_17_words :
    (NvmFullPageWrite countingShadow 0 0).map (fun r => r.2.log)
      = some ([Event.fullPageWrite 0 0,
            Event.command (NVMCTRL_CTRLA_CMD_PBC ||| NVMCTRL_CTRLA_CMDEX_KEY) 0,
            Event.statusStore NVMCTRL_STATUS_MASK]
          ++ (List.range 17).map
              (fun i => Event.store i (readShadowWord countingShadow.flashMemHandle (0 + 4 * i))))
      ∧ readShadowWord countingShadow.flashMemHandle (0 + 4 * 16) = 0x43424140 := by
  decide!

/-- C12. Flash page 0 programmed, the rest blank.  A first write commits 64
bytes to page 1 (flash byte 64 then holds source byte 0, value 1); a second
write of 64 bytes to destination 0 completes page 0, which is not blank, and
returns with flash byte 64 holding `0xFF`: the row was erased and nothing was
programmed back. -/
theorem C12_sibling_page_lost_on_rewrite :
    ((SamD2xxFlashWrite 64 pageZeroProgrammed 64 0 64).bind
        (fun r1 => (SamD2xxFlashWrite 64 r1.2 0 1000 64).map
          (fun r2 => (r1.1, byteOfWords r1.2.FLASH_MEM 64, r2.1, byteOfWords r2.2.FLASH_MEM 64))))
      = some (e_Nvm_Ready, 1, e_Nvm_Ready, 0xFF)
      ∧ pageZeroProgrammed.ram (0 + 0) % 256 = 1 := by
  decide!

theorem NvmFullPageWrite_loop_INTFLAG (p : Nat) :
    ∀ (r it nvm : Nat) (s : Machine),
      (NvmFullPageWrite_loop p r it nvm s).INTFLAG = s.INTFLAG := by
  intro r
  induction r with
  | zero => intro it nvm s; rfl
  | succ r ih =>
    intro it nvm s
    unfold NvmFullPageWrite_loop
    rw [ih]
    rfl

theorem NVM_READY_of_INTFLAG (s₁ s₂ : Machine) (h : s₁.INTFLAG = s₂.INTFLAG) :
    NVM_READY s₁ = NVM_READY s₂ := by
  unfold NVM_READY
  rw [h]

/-- Function `NvmRowErase` returns `e_Nvm_Ready` whenever it returns. -/
theorem NvmRowErase_status (s : Machine) (a : Nat) (st : NvmStatus_e) (s' : Machine)
    (h : NvmRowErase s a = some (st, s')) : st = e_Nvm_Ready := by
  unfold NvmRowErase at h
  dsimp only at h
  split at h
  · cases h
  · split at h
    · cases h
    · cases h
      rfl

/-- Function `NvmFullPageWrite` returns `e_Nvm_Ready` or `e_Nvm_PageNotEmpty`
whenever it returns. -/
theorem NvmFullPageWrite_status (s : Machine) (a p : Nat) (st : NvmStatus_e) (s' : Machine)
    (h : NvmFullPageWrite s a p = some (st, s')) :
    st = e_Nvm_Ready ∨ st = e_Nvm_PageNotEmpty := by
  unfold NvmFullPageWrite at h
  dsimp only at h
  split at h
  · cases h
  · rename_i status s1 _
    split at h
    · split at h
      · cases h
      · split at h
        · cases h
        · cases h
          exact Or.inl rfl
    · rename_i hne
      cases h
      right
      by_contra hc
      exact hne (fun e => hc e.symm)

/-- The byte loop of `WriteManager`, entered with `status = e_Nvm_Ready`,
returns `e_Nvm_Ready` whenever it returns: the status is `e_Nvm_Ready` at every
loop head, a `e_Nvm_PageNotEmpty` from `NvmFullPageWrite` being overwritten by
the result of `NvmRowErase` in the same iteration. -/
theorem WriteManager_loop_status (src n : Nat) :
    ∀ (fuel it d cpo : Nat) (s : Machine) (r : NvmStatus_e) (s' : Machine),
      WriteManager_loop src n fuel it d cpo e_Nvm_Ready s = some (r, s') →
      r = e_Nvm_Ready := by
  intro fuel
  induction fuel with
  | zero =>
    intro it d cpo s r s' h
    unfold WriteManager_loop at h
    by_cases hit : it < n
    · simp only [hit, not_true_eq_false, if_false] at h
      cases h
    · simp only [hit, not_false_eq_true, if_true] at h
      cases h
      rfl
  | succ fuel ih =>
    intro it d cpo s r s' h
    unfold WriteManager_loop at h
    by_cases hit : it < n
    · simp only [hit, not_true_eq_false, if_false] at h
      split at h
      · split at h
        · cases h
        · rename_i st s3 hfull
          split at h
          · rename_i hne
            have hst : st = e_Nvm_Ready := by
              rcases NvmFullPageWrite_status _ _ _ _ _ hfull with h1 | h1
              · exact h1
              · exact absurd h1.symm hne
            rw [hst] at h
            exact ih _ _ _ _ _ _ h
          · split at h
            · cases h
            · rename_i st4 s4 her
              have hst := NvmRowErase_status _ _ _ _ her
              rw [hst] at h
              exact ih _ _ _ _ _ _ h
      · exact ih _ _ _ _ _ _ h
    · simp only [hit, not_false_eq_true, if_true] at h
      cases h
      rfl

theorem WAIT_FOR_NVM_some (s s1 : Machine) (h : WAIT_FOR_NVM s = some s1) : s1 = s := by
  unfold WAIT_FOR_NVM at h
  split at h
  · cases h; rfl
  · cases h

theorem WAIT_FOR_NVM_ne_none (s : Machine) (hr : NVM_READY s = true) :
    WAIT_FOR_NVM s ≠ none := by
  unfold WAIT_FOR_NVM
  rw [if_pos hr]
  exact Option.some_ne_none s

theorem NvmRowErase_ne_none (s : Machine) (a : Nat) (hr : NVM_READY s = true) :
    NvmRowErase s a ≠ none := by
  unfold NvmRowErase
  dsimp only
  split
  · rename_i hw
    exact absurd hw (WAIT_FOR_NVM_ne_none _ hr)
  · rename_i s1 hw1
    have e1 := WAIT_FOR_NVM_some _ _ hw1
    subst e1
    split
    · rename_i hw
      exact absurd hw (WAIT_FOR_NVM_ne_none _ (by exact hr))
    · exact Option.some_ne_none _

theorem NvmRowErase_INTFLAG (s : Machine) (a : Nat) (st : NvmStatus_e) (s' : Machine)
    (h : NvmRowErase s a = some (st, s')) : s'.INTFLAG = s.INTFLAG := by
  unfold NvmRowErase at h
  dsimp only at h
  split at h
  · cases h
  · rename_i s1 hw1
    have e1 := WAIT_FOR_NVM_some _ _ hw1
    subst e1
    split at h
    · cases h
    · rename_i s6 hw2
      have e2 := WAIT_FOR_NVM_some _ _ hw2
      cases h
      rw [e2]
      rfl

theorem IsPageEmpty_some (s : Machine) (a : Nat) (st : NvmStatus_e) (s1 : Machine)
    (h : IsPageEmpty s a = some (st, s1)) : s1 = s := by
  unfold IsPageEmpty at h
  dsimp only at h
  split at h
  · cases h
  · rename_i s2 hw
    have e := WAIT_FOR_NVM_some _ _ hw
    cases h
    exact e

theorem IsPageEmpty_ne_none (s : Machine) (a : Nat) (hr : NVM_READY s = true) :
    IsPageEmpty s a ≠ none := by
  unfold IsPageEmpty
  dsimp only
  split
  · rename_i hw
    exact absurd hw (WAIT_FOR_NVM_ne_none _ hr)
  · exact Option.some_ne_none _

theorem NvmFullPageWrite_ne_none (s : Machine) (a p : Nat) (hr : NVM_READY s = true) :
    NvmFullPageWrite s a p ≠ none := by
  unfold NvmFullPageWrite
  dsimp only
  split
  · rename_i he
    exact absurd he (IsPageEmpty_ne_none _ _ hr)
  · rename_i status s1 he
    have e := IsPageEmpty_some _ _ _ _ he
    subst e
    split
    · split
      · rename_i hw
        exact absurd hw (WAIT_FOR_NVM_ne_none _ hr)
      · rename_i s2 hw
        have e2 := WAIT_FOR_NVM_some _ _ hw
        subst e2
        split
        · rename_i hw2
          refine absurd hw2 (WAIT_FOR_NVM_ne_none _ ?_)
          rw [NVM_READY_of_INTFLAG _ _ (NvmFullPageWrite_loop_INTFLAG _ _ _ _ _)]
          exact hr
        · exact Option.some_ne_none _
    · exact Option.some_ne_none _

theorem NvmFullPageWrite_INTFLAG (s : Machine) (a p : Nat) (st : NvmStatus_e) (s' : Machine)
    (h : NvmFullPageWrite s a p = some (st, s')) : s'.INTFLAG = s.INTFLAG := by
  unfold NvmFullPageWrite at h
  dsimp only at h
  split at h
  · cases h
  · rename_i status s1 he
    have e := IsPageEmpty_some _ _ _ _ he
    subst e
    split at h
    · split at h
      · cases h
      · rename_i s2 hw
        have e2 := WAIT_FOR_NVM_some _ _ hw
        subst e2
        split at h
        · cases h
        · rename_i s6 hw2
          have e3 := WAIT_FOR_NVM_some _ _ hw2
          cases h
          rw [e3, NvmFullPageWrite_loop_INTFLAG]
          rfl
    · cases h
      rfl

/-- On a ready controller the byte loop of `WriteManager` returns for every
`numberOfBytes ≤ 255`, given fuel for the iterations left. -/
theorem WriteManager_loop_returns (src n : Nat) (hn : n ≤ 255) :
    ∀ (fuel it d cpo : Nat) (status : NvmStatus_e) (s : Machine), NVM_READY s = true →
      it ≤ n → n - it ≤ fuel →
      ∃ r s', WriteManager_loop src n fuel it d cpo status s = some (r, s') := by
  intro fuel
  induction fuel with
  | zero =>
    intro it d cpo status s _ hle hfuel
    have hit : ¬ it < n := by omega
    unfold WriteManager_loop
    simp only [hit, not_false_eq_true, if_true]
    exact ⟨_, _, rfl⟩
  | succ fuel ih =>
    intro it d cpo status s hr hle hfuel
    unfold WriteManager_loop
    by_cases hit : it < n
    · have hu : u8 (it + 1) = it + 1 := by unfold u8; omega
      simp only [hit, not_true_eq_false, if_false, hu]
      split
      · split
        · rename_i hfull
          exact absurd hfull (NvmFullPageWrite_ne_none _ _ _ (by exact hr))
        · rename_i st s3 hfull
          have hi := NvmFullPageWrite_INTFLAG _ _ _ _ _ hfull
          have hr3 : NVM_READY s3 = true := by
            rw [NVM_READY_of_INTFLAG _ _ hi]
            exact hr
          split
          · exact ih _ _ _ _ _ (by exact hr3) (by omega) (by omega)
          · split
            · rename_i her
              exact absurd her (NvmRowErase_ne_none _ _ hr3)
            · rename_i st4 s4 her
              have hi4 := NvmRowErase_INTFLAG _ _ _ _ her
              have hr4 : NVM_READY s4 = true := by
                rw [NVM_READY_of_INTFLAG _ _ hi4]
                exact hr3
              exact ih _ _ _ _ _ hr4 (by omega) (by omega)
      · exact ih _ _ _ _ _ (by exact hr) (by omega) (by omega)
    · simp only [hit, not_false_eq_true, if_true]
      exact ⟨_, _, rfl⟩

/-- C21. Row-buffered variant: whenever `SamD2xxFlashWrite` returns, for every
machine (flash content included), destination, source and length, its result
is `e_Nvm_Ready`, hence none of `e_Nvm_PageNotEmpty`, `e_Nvm_CurrentRowErased`,
`e_Nvm_Write_Rejected`; and it does return, with `e_Nvm_Ready`, on a ready
controller for every length up to 255 given fuel for that many iterations. -/
theorem C21_result_is_e_Nvm_Ready (fuel : Nat) (s : Machine) (d src n : Nat) :
    (∀ r s', SamD2xxFlashWrite fuel s d src n = some (r, s') →
        r = e_Nvm_Ready ∧ r ≠ e_Nvm_PageNotEmpty ∧ r ≠ e_Nvm_CurrentRowErased
          ∧ r ≠ e_Nvm_Write_Rejected)
      ∧ (NVM_READY s = true → u16 n ≤ 255 → u16 n ≤ fuel →
          ∃ s', SamD2xxFlashWrite fuel s d src n = some (e_Nvm_Ready, s')) := by
  have key : ∀ r s', SamD2xxFlashWrite fuel s d src n = some (r, s') → r = e_Nvm_Ready :=
    fun r s' h => WriteManager_loop_status src (u16 n) fuel 0 _ _ _ r s' h
  refine ⟨fun r s' h => ?_, fun hr hn hfuel => ?_⟩
  · rw [key r s' h]
    exact ⟨rfl, by decide, by decide, by decide⟩
  · obtain ⟨r, s', h⟩ := WriteManager_loop_returns src (u16 n) hn fuel 0
      (UpdateCurrentBuffer s.flashMemHandle d).1
      (UpdateCurrentBuffer s.flashMemHandle d).2.offsetFreeLoc e_Nvm_Ready
      { s with flashMemHandle := (UpdateCurrentBuffer s.flashMemHandle d).2 }
      hr (Nat.zero_le _) (by omega)
    have h' : SamD2xxFlashWrite fuel s d src n = some (r, s') := h
    rw [key r s' h'] at h'
    exact ⟨s', h'⟩

/-- Witness for C21: the write of 64 bytes to the programmed page 0, during
which row 0 is erased, returns `e_Nvm_Ready`. -/
theorem C21_result_is_e_Nvm_Ready_witness :
    (∀ r s', SamD2xxFlashWrite 64 pageZeroProgrammed 0 0 64 = some (r, s') →
        r = e_Nvm_Ready ∧ r ≠ e_Nvm_PageNotEmpty ∧ r ≠ e_Nvm_CurrentRowErased
          ∧ r ≠ e_Nvm_Write_Rejected)
      ∧ ∃ s', SamD2xxFlashWrite 64 pageZeroProgrammed 0 0 64 = some (e_Nvm_Ready, s') :=
  ⟨(C21_result_is_e_Nvm_Ready 64 pageZeroProgrammed 0 0 64).1,
    (C21_result_is_e_Nvm_Ready 64 pageZeroProgrammed 0 0 64).2 (by decide) (by decide)
      (by decide)⟩

end RowBuffered
end FlashDriver
